import Mathlib

/-!
Verification development for the linear-canonicalization engine
(`pyomo/repn/linear.py`) and the scaling-factor lookup of
(`pyomo/core/plugins/transform/scaling.py`).

The Python code is shallowly embedded: Python numeric values (ints/floats
restricted to the exact arithmetic the engine performs) are modelled as
rationals plus an explicit NaN; Python exceptions are modelled with
`Except`; Python dicts (which preserve insertion order) are modelled as
association lists; object identity of variables and named subexpressions
is modelled by a `Nat` id.  Recursion over expression trees is fuelled by
a `Nat` so that every definition is a plain structural recursion that the
kernel can evaluate; running out of fuel is an explicit error, and each
statement about a walk either quantifies over the fuel or supplies enough
of it for the concrete input at hand.

On errors the model discards the driver state (Python keeps the partially
mutated registries); no theorem below observes state after an error.
-/

/-- A Python numeric value as used by the engine: an exact number or NaN.
The engine's own arithmetic on these values (products, sums, the
zero/NaN traps) is exact, so rationals model it faithfully. -/
inductive PyVal where
  | num (q : ℚ)
  | nan
deriving DecidableEq

/-- Python runtime errors that the embedded code can raise. -/
inductive PErr where
  | zeroDivisionError
  | nameError
  | typeError
  | attributeError
  | keyError
  | assertionError
  | evalError
  | fuelOut
  | internal
deriving DecidableEq

/-- Exact rational addition, computed through `Rat.normalize` so that the
kernel can evaluate it on literals (the library's own `Rat.add` is
declared irreducible). -/
def qadd (a b : ℚ) : ℚ :=
  Rat.normalize (a.num * b.den + b.num * a.den) (a.den * b.den)
    (Nat.mul_ne_zero a.den_nz b.den_nz)

/-- Exact rational multiplication, computed through `Rat.normalize`. -/
def qmul (a b : ℚ) : ℚ :=
  Rat.normalize (a.num * b.num) (a.den * b.den) (Nat.mul_ne_zero a.den_nz b.den_nz)

/-- Exact rational inverse (callers guard the zero case). -/
def qinv (b : ℚ) : ℚ :=
  if h : 0 < b.num then Rat.normalize b.den b.num.toNat (by omega)
  else if h2 : b.num < 0 then Rat.normalize (-(b.den : Int)) (-b.num).toNat (by omega)
  else 0

/-- Exact rational division (callers guard the zero case). -/
def qdiv (a b : ℚ) : ℚ := qmul a (qinv b)

/-- Python `+` on the modelled values: NaN propagates. -/
def addV : PyVal → PyVal → PyVal
  | .num a, .num b => .num (qadd a b)
  | _, _ => .nan

/-- Python `*` on the modelled values: NaN propagates (also `0 * nan = nan`). -/
def mulV : PyVal → PyVal → PyVal
  | .num a, .num b => .num (qmul a b)
  | _, _ => .nan

/-- Python `/`: any division by (exact) zero raises `ZeroDivisionError`
(also `nan / 0`); otherwise NaN propagates. -/
def divV : PyVal → PyVal → Except PErr PyVal
  | _, .num 0 => .error .zeroDivisionError
  | .num a, .num b => .ok (.num (qdiv a b))
  | _, _ => .ok .nan

/-- Python truthiness of a value: `bool(nan) = True`, `bool(q) = (q ≠ 0)`. -/
def truthyV : PyVal → Bool
  | .num q => q ≠ 0
  | .nan => true

/-- Python `v != v`, true exactly for NaN. -/
def isNaNV : PyVal → Bool
  | .num _ => false
  | .nan => true

/-- Python `==` between modelled values: NaN compares unequal to everything. -/
def peq : PyVal → PyVal → Bool
  | .num a, .num b => a = b
  | _, _ => false

/-- The classification tags (`pyomo.repn.util.ExprType`). -/
inductive ExprType where
  | CONSTANT
  | LINEAR
  | GENERAL
deriving DecidableEq

/-- A model variable: its Python identity (`id(v)`), whether it is
currently fixed, and its current value (`v()`).  Two `Var` records with
the same `vid` model the same underlying object, possibly observed at
times where its `fixed` flag differs. -/
structure Var where
  vid : Nat
  fixed : Bool
  val : PyVal
deriving DecidableEq

/-- The expression language walked by `LinearRepnVisitor`: the node kinds
of `linear.py`'s dispatch tables that the claims exercise.  `monomial`
is `MonomialTermExpression (coef, var)`, `linear` is `LinearExpression`,
`named` is a named/shared subexpression with identity `nid`, `external`
is an `ExternalFunctionExpression` with function id `fid`. -/
inductive Expr where
  | const (v : PyVal)
  | var (x : Var)
  | neg (a : Expr)
  | sum (args : List Expr)
  | prod (a b : Expr)
  | div (a b : Expr)
  | monomial (coef : Expr) (x : Var)
  | linear (args : List Expr)
  | exprIf (test t f : Expr)
  | external (fid : Nat) (args : List Expr)
  | named (nid : Nat) (body : Expr)

/-- Association-list lookup (Python `d[k]` / `k in d`). -/
def alGet {α : Type} : List (Nat × α) → Nat → Option α
  | [], _ => none
  | (k, a) :: rest, k' => if k = k' then some a else alGet rest k'

/-- Association-list store (Python `d[k] = v`): overwrite in place keeping
the insertion position, or append a new entry. -/
def alSet {α : Type} : List (Nat × α) → Nat → α → List (Nat × α)
  | [], k, v => [(k, v)]
  | (k', a) :: rest, k, v => if k' = k then (k, v) :: rest else (k', a) :: alSet rest k v

/-- `LinearRepn`: the Canonical Result (multiplier, constant, linear
coefficient dict keyed by variable identity, optional nonlinear residual). -/
structure LinearRepn where
  multiplier : PyVal
  constant : PyVal
  linear : List (Nat × PyVal)
  nonlinear : Option Expr

/-- `LinearRepn.__init__`. -/
def LinearRepn.init : LinearRepn :=
  { multiplier := .num 1, constant := .num 0, linear := [], nonlinear := none }

/-- `LinearRepn.duplicate`: in this pure value model the field-wise copy is
the value itself (the aliasing content of duplication is verified
separately on the heap model below). -/
def LinearRepn.duplicate (self : LinearRepn) : LinearRepn :=
  { multiplier := self.multiplier, constant := self.constant,
    linear := self.linear, nonlinear := self.nonlinear }

/-- The payload paired with a classification tag: a bare numeric value or
a `LinearRepn`. -/
inductive Payload where
  | val (v : PyVal)
  | rep (r : LinearRepn)

/-- Python truthiness of a payload (`LinearRepn` objects are truthy). -/
def pyTruthy : Payload → Bool
  | .val v => truthyV v
  | .rep _ => true

/-- Python `x != x` on a payload (`LinearRepn` objects compare equal to
themselves). -/
def pyIsNaN : Payload → Bool
  | .val v => isNaNV v
  | .rep _ => false

/-- Projecting the bare numeric value where Python does arithmetic on it;
a `LinearRepn` there raises `TypeError`. -/
def asVal : Payload → Except PErr PyVal
  | .val v => .ok v
  | .rep _ => .error .typeError

/-- Projecting the `LinearRepn` where Python accesses its attributes;
a bare number there raises `AttributeError`. -/
def asRep : Payload → Except PErr LinearRepn
  | .rep r => .ok r
  | .val _ => .error .attributeError

/-- `LinearRepn.walker_exitNode`. -/
def LinearRepn.walker_exitNode (self : LinearRepn) : ExprType × Payload :=
  match self.nonlinear with
  | some _ => (.GENERAL, .rep self)
  | none =>
    if self.linear.isEmpty then (.CONSTANT, .val (mulV self.multiplier self.constant))
    else (.LINEAR, .rep self)

/-- `_merge_dict(mult, self_dict, other_dict)`: fold the entries of
`other_dict` (in insertion order) into `self_dict`, scaled by `mult`
unless `mult == 1`. -/
def merge_dict (mult : PyVal) (self_dict : List (Nat × PyVal)) :
    List (Nat × PyVal) → List (Nat × PyVal)
  | [] => self_dict
  | (vid, coef) :: rest =>
    let c := if peq mult (.num 1) then coef else mulV mult coef
    let d := match alGet self_dict vid with
      | some old => alSet self_dict vid (addV old c)
      | none => self_dict ++ [(vid, c)]
    merge_dict mult d rest

/-- `LinearRepn.append(other)`: merge a child's `(type, payload)` into the
running sum accumulator.  A tag/payload shape mismatch raises, as Python
would (`+=` on a repn: TypeError; `.multiplier` of a float: AttributeError). -/
def LinearRepn.append (self : LinearRepn) : ExprType × Payload → Except PErr LinearRepn
  | (.CONSTANT, p) => do
    let v ← asVal p
    .ok { self with constant := addV self.constant v }
  | (_, p) => do
    let o ← asRep p
    let mult := o.multiplier
    let c := addV self.constant (mulV mult o.constant)
    let lin := if o.linear.isEmpty then self.linear else merge_dict mult self.linear o.linear
    let nl := match o.nonlinear with
      | none => self.nonlinear
      | some onl =>
        let onl := if peq mult (.num 1) then onl else Expr.prod (.const mult) onl
        match self.nonlinear with
        | none => some onl
        | some snl => some (.sum [snl, onl])
    .ok { multiplier := self.multiplier, constant := c, linear := lin, nonlinear := nl }

/-- The driver state: the variable registry (`var_map`, insertion order =
discovery order, so `var_order` is the position in this list) and the
subexpression cache. -/
structure VState where
  var_map : List (Nat × Var)
  cache : List (Nat × (ExprType × Payload))

/-- The empty state a fresh `LinearRepnVisitor` starts from. -/
def VState.init : VState := { var_map := [], cache := [] }

/-- `var_map[vid]` with the (unreachable for results produced by the walk:
every key of a `linear` dict was registered first) KeyError case mapped to
a placeholder variable, keeping reconstruction total. -/
def lookupVarD (var_map : List (Nat × Var)) (vid : Nat) : Var :=
  match alGet var_map vid with
  | some x => x
  | none => { vid := vid, fixed := false, val := .num 0 }

/-- `LinearRepn.to_expression(visitor)`: rebuild a concrete expression,
dropping zero linear coefficients, adding the constant, appending the
nonlinear residual, and multiplying by a non-1 multiplier. -/
def LinearRepn.to_expression (self : LinearRepn) (var_map : List (Nat × Var)) : Expr :=
  let ans : Expr :=
    if self.linear.isEmpty then .const self.constant
    else .sum [.linear (self.linear.filterMap fun p =>
            if truthyV p.2 then some (.monomial (.const p.2) (lookupVarD var_map p.1)) else none),
          .const self.constant]
  let ans := match self.nonlinear with
    | none => ans
    | some nl => .sum [ans, nl]
  if peq self.multiplier (.num 1) then ans else .prod ans (.const self.multiplier)

/-- The `to_expression` dispatch on a classified `(type, payload)` pair:
CONSTANT payloads are used as-is as (numeric) expressions, repn payloads
are reconstructed.  A CONSTANT tag on a repn payload would silently embed
the repn object into an expression in Python; it is unreachable (see the
classification invariant) and modelled as a TypeError. -/
def payload_to_expression (var_map : List (Nat × Var)) : ExprType × Payload → Except PErr Expr
  | (.CONSTANT, .val v) => .ok (.const v)
  | (.CONSTANT, .rep _) => .error .typeError
  | (_, p) => do
    let r ← asRep p
    .ok (r.to_expression var_map)

/-- `_handle_negation_constant` / `_handle_negation_ANY`, dispatched on the
operand tag as `_exit_node_handlers[NegationExpression]` does: CONSTANT
negates the value, LINEAR/GENERAL multiply the pending multiplier by -1. -/
def handle_negation : ExprType × Payload → Except PErr (ExprType × Payload)
  | (.CONSTANT, p) => do
    let v ← asVal p
    .ok (.CONSTANT, .val (mulV (.num (-1)) v))
  | (t, p) => do
    let r ← asRep p
    .ok (t, .rep { r with multiplier := mulV r.multiplier (.num (-1)) })

/-- `_handle_product_nonlinear`: reconstruct both operands and wrap the
product as a GENERAL result. -/
def handle_product_nonlinear (var_map : List (Nat × Var))
    (a1 a2 : ExprType × Payload) : Except PErr (ExprType × Payload) := do
  let e1 ← payload_to_expression var_map a1
  let e2 ← payload_to_expression var_map a2
  .ok (.GENERAL, .rep { LinearRepn.init with nonlinear := some (.prod e1 e2) })

/-- The `_exit_node_handlers[ProductExpression]` dispatch:
constant×constant multiplies, a constant operand that is zero or NaN
short-circuits to CONSTANT with that value (`not arg1 or arg1 != arg1`),
an ordinary constant scales the other operand's multiplier, and two
non-constant operands reconstruct to a GENERAL product. -/
def handle_product (var_map : List (Nat × Var)) :
    ExprType × Payload → ExprType × Payload → Except PErr (ExprType × Payload)
  | (.CONSTANT, p1), (.CONSTANT, p2) => do
    let v1 ← asVal p1
    let v2 ← asVal p2
    .ok (.CONSTANT, .val (mulV v1 v2))
  | (.CONSTANT, p1), (t2, p2) =>
    if !(pyTruthy p1) || pyIsNaN p1 then .ok (.CONSTANT, p1)
    else do
      let v1 ← asVal p1
      let r2 ← asRep p2
      .ok (t2, .rep { r2 with multiplier := mulV r2.multiplier v1 })
  | (t1, p1), (.CONSTANT, p2) =>
    if !(pyTruthy p2) || pyIsNaN p2 then .ok (.CONSTANT, p2)
    else do
      let v2 ← asVal p2
      let r1 ← asRep p1
      .ok (t1, .rep { r1 with multiplier := mulV r1.multiplier v2 })
  | a1, a2 => handle_product_nonlinear var_map a1 a2

/-- `_handle_division_nonlinear`. -/
def handle_division_nonlinear (var_map : List (Nat × Var))
    (a1 a2 : ExprType × Payload) : Except PErr (ExprType × Payload) := do
  let e1 ← payload_to_expression var_map a1
  let e2 ← payload_to_expression var_map a2
  .ok (.GENERAL, .rep { LinearRepn.init with nonlinear := some (.div e1 e2) })

/-- The `_exit_node_handlers[DivisionExpression]` dispatch:
constant/constant divides (raising on a zero divisor, as Python `/`
does), ANY/constant short-circuits a NaN divisor to CONSTANT NaN and
otherwise divides the multiplier, every other combination is GENERAL. -/
def handle_division (var_map : List (Nat × Var)) :
    ExprType × Payload → ExprType × Payload → Except PErr (ExprType × Payload)
  | (.CONSTANT, p1), (.CONSTANT, p2) => do
    let v1 ← asVal p1
    let v2 ← asVal p2
    let v ← divV v1 v2
    .ok (.CONSTANT, .val v)
  | (.CONSTANT, p1), (t2, p2) => handle_division_nonlinear var_map (.CONSTANT, p1) (t2, p2)
  | (t1, p1), (.CONSTANT, p2) =>
    if pyIsNaN p2 then .ok (.CONSTANT, p2)
    else do
      let v2 ← asVal p2
      let r1 ← asRep p1
      let m ← divV r1.multiplier v2
      .ok (t1, .rep { r1 with multiplier := m })
  | a1, a2 => handle_division_nonlinear var_map a1 a2

/-- `_handle_expr_if_nonlinear`. -/
def handle_expr_if_nonlinear (var_map : List (Nat × Var))
    (a1 a2 a3 : ExprType × Payload) : Except PErr (ExprType × Payload) := do
  let e1 ← payload_to_expression var_map a1
  let e2 ← payload_to_expression var_map a2
  let e3 ← payload_to_expression var_map a3
  .ok (.GENERAL, .rep { LinearRepn.init with nonlinear := some (.exprIf e1 e2 e3) })

/-- The `_exit_node_handlers[Expr_ifExpression]` dispatch: a CONSTANT test
selects a branch (a NaN test falls through to the generic GENERAL
reconstruction); a non-constant test is always GENERAL. -/
def handle_expr_if (var_map : List (Nat × Var))
    (a1 a2 a3 : ExprType × Payload) : Except PErr (ExprType × Payload) :=
  match a1.1 with
  | .CONSTANT =>
    if pyTruthy a1.2 then
      if pyIsNaN a1.2 then handle_expr_if_nonlinear var_map a1 a2 a3
      else .ok a2
    else .ok a3
  | _ => handle_expr_if_nonlinear var_map a1 a2 a3

/-- `_before_var`: a fixed check happens only when the identity is not yet
registered; otherwise (and after registering a free variable) the result
is LINEAR with coefficient 1 on the identity. -/
def before_var (x : Var) (s : VState) : ((ExprType × Payload) × VState) :=
  match alGet s.var_map x.vid with
  | some _ => ((.LINEAR, .rep { LinearRepn.init with linear := [(x.vid, .num 1)] }), s)
  | none =>
    if x.fixed then ((.CONSTANT, .val x.val), s)
    else ((.LINEAR, .rep { LinearRepn.init with linear := [(x.vid, .num 1)] }),
          { s with var_map := s.var_map ++ [(x.vid, x)] })

/-- The body of `_before_monomial` once the coefficient value is known:
trap an exactly-zero or NaN coefficient to CONSTANT before the variable
is even inspected, then apply the same registered/fixed logic as
`_before_var`, scaled by the coefficient. -/
def mono_core (cv : PyVal) (x : Var) (s : VState) : ((ExprType × Payload) × VState) :=
  if !(truthyV cv) || isNaNV cv then ((.CONSTANT, .val cv), s)
  else
    match alGet s.var_map x.vid with
    | some _ => ((.LINEAR, .rep { LinearRepn.init with linear := [(x.vid, cv)] }), s)
    | none =>
      if x.fixed then ((.CONSTANT, .val (mulV cv x.val)), s)
      else ((.LINEAR, .rep { LinearRepn.init with linear := [(x.vid, cv)] }),
            { s with var_map := s.var_map ++ [(x.vid, x)] })

/-- Modelled from the spec: expression evaluation (`expr()`), provided by
the expression system outside `src/`.  Evaluates an expression to its
current numeric value, using variable values regardless of fixedness;
an external-function call has no model and evaluates to an error (its
callers treat any evaluation error as a fall back to structural descent).
Processes a list of expressions left to right; the head result is consed
onto the rest.  Fuelled. -/
def evalL : Nat → List Expr → Except PErr (List PyVal)
  | _, [] => .ok []
  | 0, _ :: _ => .error .fuelOut
  | fuel + 1, e :: rest => do
    let v ← (match e with
      | .const v => .ok v
      | .var x => .ok x.val
      | .neg a => do
        let vs ← evalL fuel [a]
        match vs with
        | [v] => .ok (mulV (.num (-1)) v)
        | _ => .error .internal
      | .sum args => do
        let vs ← evalL fuel args
        .ok (vs.foldl addV (.num 0))
      | .prod a b => do
        let vs ← evalL fuel [a, b]
        match vs with
        | [v1, v2] => .ok (mulV v1 v2)
        | _ => .error .internal
      | .div a b => do
        let vs ← evalL fuel [a, b]
        match vs with
        | [v1, v2] => divV v1 v2
        | _ => .error .internal
      | .monomial c x => do
        let vs ← evalL fuel [c]
        match vs with
        | [v1] => .ok (mulV v1 x.val)
        | _ => .error .internal
      | .linear args => do
        let vs ← evalL fuel args
        .ok (vs.foldl addV (.num 0))
      | .exprIf t a b => do
        let vs ← evalL fuel [t]
        match vs with
        | [vt] =>
          if truthyV vt then do
            let vs2 ← evalL fuel [a]
            match vs2 with
            | [v] => .ok v
            | _ => .error .internal
          else do
            let vs2 ← evalL fuel [b]
            match vs2 with
            | [v] => .ok v
            | _ => .error .internal
        | _ => .error .internal
      | .external _ _ => .error .evalError
      | .named _ body => do
        let vs ← evalL fuel [body]
        match vs with
        | [v] => .ok v
        | _ => .error .internal)
    let vs ← evalL fuel rest
    .ok (v :: vs)

/-- Evaluation of a single expression, via `evalL`. -/
def evalE (fuel : Nat) (e : Expr) : Except PErr PyVal :=
  match evalL fuel [e] with
  | .ok [v] => .ok v
  | .ok _ => .error .internal
  | .error er => .error er

/-- Modelled from the spec: `is_fixed` (imported from `pyomo.core.expr`,
not under `src/`) — an expression is fixed iff every variable occurring
in it is fixed.  `none` means the fuel ran out. -/
def isFixedL : Nat → List Expr → Option Bool
  | _, [] => some true
  | 0, _ :: _ => none
  | fuel + 1, e :: rest =>
    let b : Option Bool := match e with
      | .const _ => some true
      | .var x => some x.fixed
      | .neg a => isFixedL fuel [a]
      | .sum args => isFixedL fuel args
      | .prod a b => isFixedL fuel [a, b]
      | .div a b => isFixedL fuel [a, b]
      | .monomial c x => (isFixedL fuel [c]).map (fun bc => bc && x.fixed)
      | .linear args => isFixedL fuel args
      | .exprIf t a b => isFixedL fuel [t, a, b]
      | .external _ args => isFixedL fuel args
      | .named _ body => isFixedL fuel [body]
    match b, isFixedL fuel rest with
    | some b1, some b2 => some (b1 && b2)
    | _, _ => none

/-- The result of `_before_linear`'s single-pass fold over a
`LinearExpression`'s terms: either the accumulated constant, linear dict
and updated state, or the signal to fall back to structural descent
(an argument whose coefficient could not be evaluated). -/
inductive FoldRes where
  | done (const : PyVal) (lin : List (Nat × PyVal)) (s : VState)
  | descend

/-- The loop body of `_before_linear`: monomial terms are trapped on a
zero coefficient (skipped) or NaN coefficient (added to the constant),
otherwise registered/accumulated exactly as `_before_monomial` would with
duplicate identities summed; native constants and evaluable non-monomial
arguments are added to the constant; an evaluation failure aborts to
structural descent. -/
def linear_fold (fuel : Nat) : List Expr → PyVal → List (Nat × PyVal) → VState → FoldRes
  | [], const, lin, s => .done const lin s
  | arg :: rest, const, lin, s =>
    match arg with
    | .monomial c x =>
      let cvE : Except Unit PyVal := match c with
        | .const cv => .ok cv
        | _ => match evalE fuel c with
          | .ok cv => .ok cv
          | .error _ => .error ()
      match cvE with
      | .error _ => .descend
      | .ok cv =>
        if !(truthyV cv) then linear_fold fuel rest const lin s
        else if isNaNV cv then linear_fold fuel rest (addV const cv) lin s
        else
          match alGet s.var_map x.vid with
          | none =>
            if x.fixed then linear_fold fuel rest (addV const (mulV cv x.val)) lin s
            else linear_fold fuel rest const (lin ++ [(x.vid, cv)])
                   { s with var_map := s.var_map ++ [(x.vid, x)] }
          | some _ =>
            match alGet lin x.vid with
            | some old => linear_fold fuel rest const (alSet lin x.vid (addV old cv)) s
            | none => linear_fold fuel rest const (lin ++ [(x.vid, cv)]) s
    | .const v => linear_fold fuel rest (addV const v) lin s
    | other =>
      match evalE fuel other with
      | .ok v => linear_fold fuel rest (addV const v) lin s
      | .error _ => .descend

/-- The walk: processes a list of child expressions left to right,
threading the driver state, and returns their classified `(type,
payload)` results.  For each head expression this is the before-child
dispatch of `linear.py` (fast paths for natives, variables, monomials,
linear expressions, named subexpressions, `Expr_if` and external calls),
with generic structural descent inlined for the operator nodes.

Two faithful renderings of latent source defects are embedded here and
proved as such below:
* `_before_expr_if` refers to the undefined name `self` (instead of
  `visitor`), so an evaluable (callable, non-native) fixed test raises
  `NameError`; a native-constant test is not callable, the `test()`
  `TypeError` is swallowed by the bare `except`, and the node falls back
  to full structural descent.
* `_before_external` refers to the undefined name `test`; the `NameError`
  is swallowed by the bare `except: pass`, so the all-arguments-fixed
  branch never produces a CONSTANT and every external call is GENERAL
  with the call itself as the nonlinear payload (the computation of
  `all(is_fixed(arg))` has no other effect and is elided).

Structural descent into a `MonomialTermExpression` or `LinearExpression`
(only reachable when a coefficient fails to evaluate) walks the children
and then fails: the exit dispatcher has no entry for these node types
(`exit_node_dispatcher` is a plain dict), modelled as `KeyError`. -/
def walkL : Nat → List Expr → VState → Except PErr (List (ExprType × Payload) × VState)
  | _, [], s => .ok ([], s)
  | 0, _ :: _, _ => .error .fuelOut
  | fuel + 1, e :: rest, s => do
    let (tp, s1) ← (show Except PErr ((ExprType × Payload) × VState) from
      match e with
      | .const v => .ok ((.CONSTANT, .val v), s)
      | .var x => .ok (before_var x s)
      | .monomial c x =>
        let cvE : Except Unit PyVal := match c with
          | .const cv => .ok cv
          | _ => match evalE fuel c with
            | .ok cv => .ok cv
            | .error _ => .error ()
        match cvE with
        | .ok cv => .ok (mono_core cv x s)
        | .error _ => do
          let _ ← walkL fuel [c, .var x] s
          .error .keyError
      | .linear args =>
        match linear_fold fuel args (.num 0) [] s with
        | .done const lin s1 =>
          if lin.isEmpty then .ok ((.CONSTANT, .val const), s1)
          else .ok ((.LINEAR, .rep { LinearRepn.init with constant := const, linear := lin }), s1)
        | .descend => do
          let _ ← walkL fuel args s
          .error .keyError
      | .sum args => do
        let (tps, s1) ← walkL fuel args s
        let acc ← tps.foldlM LinearRepn.append LinearRepn.init
        .ok (acc.walker_exitNode, s1)
      | .neg a => do
        let (tps, s1) ← walkL fuel [a] s
        match tps with
        | [tp1] => do
          let tp ← handle_negation tp1
          .ok (tp, s1)
        | _ => .error .internal
      | .prod a b => do
        let (tps, s1) ← walkL fuel [a, b] s
        match tps with
        | [tp1, tp2] => do
          let tp ← handle_product s1.var_map tp1 tp2
          .ok (tp, s1)
        | _ => .error .internal
      | .div a b => do
        let (tps, s1) ← walkL fuel [a, b] s
        match tps with
        | [tp1, tp2] => do
          let tp ← handle_division s1.var_map tp1 tp2
          .ok (tp, s1)
        | _ => .error .internal
      | .exprIf t a b => do
        let _ ← (show Except PErr Unit from
          match isFixedL fuel [t] with
          | none => .error .fuelOut
          | some false => .ok ()
          | some true =>
            match t with
            | .const _ => .ok ()
            | t' =>
              match evalE fuel t' with
              | .error _ => .ok ()
              | .ok _ => .error .nameError)
        let (tps, s1) ← walkL fuel [t, a, b] s
        match tps with
        | [r1, r2, r3] => do
          let tp ← handle_expr_if s1.var_map r1 r2 r3
          .ok (tp, s1)
        | _ => .error .internal
      | .external fid args =>
        .ok ((.GENERAL, .rep { LinearRepn.init with nonlinear := some (.external fid args) }), s)
      | .named nid body =>
        match alGet s.cache nid with
        | some (tag, p) =>
          if tag = .CONSTANT then .ok ((tag, p), s)
          else
            match p with
            | .rep r => .ok ((tag, .rep r.duplicate), s)
            | .val _ => .error .attributeError
        | none => do
          let (tps, s1) ← walkL fuel [body] s
          match tps with
          | [(tag, p)] =>
            let s2 := { s1 with cache := alSet s1.cache nid (tag, p) }
            if tag = .CONSTANT then .ok ((tag, p), s2)
            else
              match p with
              | .rep r => .ok ((tag, .rep r.duplicate), s2)
              | .val _ => .error .attributeError
          | _ => .error .internal)
    let (tps, s2) ← walkL fuel rest s1
    .ok (tp :: tps, s2)

/-- The walk of a single expression (the visitor's before-child dispatch
plus generic descent), returning its classified `(type, payload)` pair. -/
def walkT (fuel : Nat) (e : Expr) (s : VState) :
    Except PErr ((ExprType × Payload) × VState) :=
  match walkL fuel [e] s with
  | .ok ([tp], s1) => .ok (tp, s1)
  | .ok _ => .error .internal
  | .error er => .error er

/-- `LinearRepnVisitor.finalizeResult`: on a repn payload, entries with a
falsy (exactly zero) coefficient are deleted; with a multiplier `!= 1`
the surviving coefficients and a present nonlinear term are multiplied
by it.  Note the source leaves `constant` and `multiplier` themselves
untouched in that branch.  A bare payload must be CONSTANT (`assert`)
and is wrapped into a fresh repn as its constant. -/
def finalizeResult : ExprType × Payload → Except PErr LinearRepn
  | (_, .rep ans) =>
    let mult := ans.multiplier
    if peq mult (.num 1) then
      .ok { ans with linear := ans.linear.filter fun p => truthyV p.2 }
    else
      .ok { ans with
            linear := ans.linear.filterMap fun p =>
              if truthyV p.2 then some (p.1, mulV p.2 mult) else none,
            nonlinear := ans.nonlinear.map fun nl => .prod nl (.const mult) }
  | (t, .val v) =>
    if t = .CONSTANT then .ok { LinearRepn.init with constant := v }
    else .error .assertionError

/-- `walk_expression` followed by `finalizeResult`: the classification
entry point exposed to consumers (`classify` in the spec). -/
def classify (fuel : Nat) (e : Expr) (s : VState) : Except PErr (LinearRepn × VState) := do
  let (tp, s1) ← walkT fuel e s
  let r ← finalizeResult tp
  .ok (r, s1)

/-!  The scaling transformation (`scaling.py`): `_get_float_scaling_factor`. -/

/-- A Python object held by a `scaling_factor` Suffix, classified by how
the builtin `float()` treats it: a number, a string that parses as a
float, a string that does not (`float()` raises `ValueError`), or a
non-string non-number object (`float()` raises `TypeError`). -/
inductive SuffixVal where
  | num (q : ℚ)
  | strOk (q : ℚ)
  | strBad (s : String)
  | objOther (desc : String)
deriving DecidableEq

/-- The errors of the builtin `float()` conversion. -/
inductive PyFloatErr where
  | valueError
  | typeError
deriving DecidableEq

/-- Modelled from Python builtin semantics: `float(x)` succeeds on numbers
and numeric strings, raises `ValueError` on non-numeric strings and
`TypeError` on other objects. -/
def floatFn : SuffixVal → Except PyFloatErr ℚ
  | .num q => .ok q
  | .strOk q => .ok q
  | .strBad _ => .error .valueError
  | .objOther _ => .error .typeError

/-- The `%s` rendering of a suffix value in the error message. -/
def svRepr : SuffixVal → String
  | .num _ => "number"
  | .strOk _ => "numeric-string"
  | .strBad s => s
  | .objOther d => d

/-- The outcome of `ScaleModel._get_float_scaling_factor`: a factor, the
descriptive `ValueError` the method raises itself, or an exception that
propagates out of it undecorated. -/
inductive ScaleResult where
  | factor (q : ℚ)
  | scaleValueError (msg : String)
  | rawTypeError
deriving DecidableEq

/-- `ScaleModel._get_float_scaling_factor`, parameterized by the outcome of
the `_suffix_finder` lookup: a missing suffix value yields 1.0; otherwise
`float(scaling_factor)` is attempted, a `ValueError` is re-raised as the
descriptive message naming the value and the component, and any other
exception (notably `TypeError`) escapes the `except ValueError` clause. -/
def get_float_scaling_factor (found : Option SuffixVal) (componentName : String) :
    ScaleResult :=
  match found with
  | none => .factor 1
  | some v =>
    match floatFn v with
    | .ok q => .factor q
    | .error .valueError =>
      .scaleValueError
        ("Suffix scaling_factor has a value " ++ svRepr v ++ " for component "
          ++ componentName
          ++ " that cannot be converted to a float. Floating point values are required for this suffix in the ScaleModel transformation.")
    | .error .typeError => .rawTypeError

/-!  A small heap model for the aliasing content of `duplicate` and the
named-subexpression handlers: `LinearRepn` objects live at addresses, a
repn's `linear` dict is itself a separate heap object referenced by
address, and in-place mutation is an update at an address.  This captures
exactly what the pure value model above cannot: that the pair committed
to the subexpression cache is not affected by later in-place mutation of
the duplicates handed to callers. -/

/-- A `LinearRepn` object with its `linear` dict held by reference. -/
structure RepnObj where
  multiplier : PyVal
  constant : PyVal
  linearRef : Nat
  nonlinear : Option Expr

/-- The heap: repn objects and dict objects, addressed by list position;
allocation appends. -/
structure Heap where
  repns : List RepnObj
  dicts : List (List (Nat × PyVal))

/-- In-place list update (no-op out of bounds). -/
def lupdate {α : Type} : List α → Nat → (α → α) → List α
  | [], _, _ => []
  | x :: xs, 0, f => f x :: xs
  | x :: xs, n + 1, f => x :: lupdate xs n f

/-- Dereference a repn address. -/
def readRepn (h : Heap) (a : Nat) : Option RepnObj := h.repns.get? a

/-- Dereference a dict address. -/
def readDict (h : Heap) (d : Nat) : Option (List (Nat × PyVal)) := h.dicts.get? d

/-- The observable content of the repn at address `a`: its scalar fields,
the contents of its linear dict, and its nonlinear field. -/
def obsRepn (h : Heap) (a : Nat) :
    Option (PyVal × PyVal × Option (List (Nat × PyVal)) × Option Expr) :=
  (readRepn h a).map fun o => (o.multiplier, o.constant, readDict h o.linearRef, o.nonlinear)

/-- `LinearRepn.duplicate` on the heap: read the object, allocate a fresh
dict holding a copy of its `linear` contents (`dict(self.linear)`), and
allocate a fresh repn with the same scalar fields, the fresh dict, and
the same (shared) nonlinear expression. -/
def duplicateH (h : Heap) (a : Nat) : Option (Heap × Nat) :=
  match readRepn h a with
  | none => none
  | some o =>
    match readDict h o.linearRef with
    | none => none
    | some d =>
      some ({ repns := h.repns ++ [{ o with linearRef := h.dicts.length }],
              dicts := h.dicts ++ [d] },
            h.repns.length)

/-- `self.multiplier = v` at address `a`. -/
def setMultH (h : Heap) (a : Nat) (v : PyVal) : Heap :=
  { h with repns := lupdate h.repns a fun o => { o with multiplier := v } }

/-- `self.linear[k] = v` at address `a` (mutates the referenced dict). -/
def setLinH (h : Heap) (a : Nat) (k : Nat) (v : PyVal) : Heap :=
  match readRepn h a with
  | none => h
  | some o => { h with dicts := lupdate h.dicts o.linearRef fun d => alSet d k v }

/-- The subexpression cache of the heap model, holding LINEAR/GENERAL
entries (tag and payload address). -/
def HCache : Type := List (Nat × (ExprType × Nat))

/-- `_handle_named_ANY` on the heap: commit the incoming `(type, payload)`
pair to the cache keyed by the node identity, then return the type with a
duplicate of the payload. -/
def handle_named_ANY_H (h : Heap) (cache : HCache) (nid : Nat) (tag : ExprType) (a : Nat) :
    Option (Heap × HCache × (ExprType × Nat)) :=
  let cache1 := alSet cache nid (tag, a)
  match duplicateH h a with
  | none => none
  | some (h1, a1) => some (h1, cache1, (tag, a1))

/-- The cache-hit path of `_before_named_expression` on the heap: a
non-CONSTANT hit returns the cached type with a duplicate of the cached
payload. -/
def before_named_hit_H (h : Heap) (cache : HCache) (nid : Nat) :
    Option (Heap × (ExprType × Nat)) :=
  match alGet cache nid with
  | none => none
  | some (tag, a) =>
    match duplicateH h a with
    | none => none
    | some (h1, a1) => some (h1, (tag, a1))

/-!  The classification invariant (spec §3): a result is CONSTANT iff its
payload is a bare value, LINEAR iff it is a repn with no nonlinear part
and a non-empty linear dict, GENERAL iff it is a repn with a nonlinear
part. -/

/-- The invariant a classified `(type, payload)` pair satisfies. -/
def InvTP : ExprType × Payload → Prop
  | (.CONSTANT, p) => ∃ v, p = .val v
  | (.LINEAR, p) => ∃ r, p = .rep r ∧ r.nonlinear = none ∧ r.linear ≠ []
  | (.GENERAL, p) => ∃ r, p = .rep r ∧ r.nonlinear ≠ none

/-- Well-formedness of the driver state: every cached pair satisfies the
classification invariant. -/
def WFS (s : VState) : Prop := ∀ p ∈ s.cache, InvTP p.2

/-- `Except` bind on a success is function application. -/
@[simp] theorem except_ok_bind {ε α β : Type} (a : α) (f : α → Except ε β) :
    (Except.ok a >>= f) = f a := rfl

/-- `Except` bind on an error short-circuits. -/
@[simp] theorem except_error_bind {ε α β : Type} (e : ε) (f : α → Except ε β) :
    ((Except.error e : Except ε α) >>= f) = .error e := rfl

/-- `pure` on `Except` is `ok`. -/
@[simp] theorem except_pure_eq {ε α : Type} (a : α) :
    (pure a : Except ε α) = .ok a := rfl

/-- `walker_exitNode` re-derives the tag from the repn's shape, so its
result always satisfies the invariant. -/
theorem invTP_walker_exitNode (r : LinearRepn) : InvTP r.walker_exitNode := by
  unfold LinearRepn.walker_exitNode
  cases hnl : r.nonlinear with
  | some nl => exact ⟨r, rfl, by simp [hnl]⟩
  | none =>
    by_cases hl : r.linear.isEmpty
    · simp only [hl, if_true]
      exact ⟨_, rfl⟩
    · simp only [hl, if_false]
      exact ⟨r, rfl, hnl, by simpa [List.isEmpty_iff] using hl⟩

/-- Negation preserves the invariant: the CONSTANT case produces a bare
value, the others only touch the multiplier. -/
theorem handle_negation_inv {tp tp' : ExprType × Payload}
    (hi : InvTP tp) (h : handle_negation tp = .ok tp') : InvTP tp' := by
  obtain ⟨t, p⟩ := tp
  cases t with
  | CONSTANT =>
    obtain ⟨v, rfl⟩ := hi
    simp only [handle_negation, asVal, except_ok_bind, Except.ok.injEq] at h
    exact h ▸ ⟨_, rfl⟩
  | LINEAR =>
    obtain ⟨r, rfl, hnl, hlin⟩ := hi
    simp only [handle_negation, asRep, except_ok_bind, Except.ok.injEq] at h
    exact h ▸ ⟨_, rfl, hnl, hlin⟩
  | GENERAL =>
    obtain ⟨r, rfl, hnl⟩ := hi
    simp only [handle_negation, asRep, except_ok_bind, Except.ok.injEq] at h
    exact h ▸ ⟨_, rfl, hnl⟩

/-- A freshly-built GENERAL result with a set nonlinear field satisfies
the invariant. -/
theorem invTP_general_fresh (e : Expr) :
    InvTP (.GENERAL, .rep { LinearRepn.init with nonlinear := some e }) :=
  ⟨_, rfl, by simp⟩

/-- `handle_product_nonlinear` preserves the invariant (it only ever
produces a fresh GENERAL result). -/
theorem handle_product_nonlinear_inv {vm : List (Nat × Var)} {a1 a2 tp' : ExprType × Payload}
    (h : handle_product_nonlinear vm a1 a2 = .ok tp') : InvTP tp' := by
  unfold handle_product_nonlinear at h
  cases h1 : payload_to_expression vm a1 with
  | error e => simp [h1] at h
  | ok e1 =>
    cases h2 : payload_to_expression vm a2 with
    | error e => simp [h1, h2] at h
    | ok e2 =>
      simp only [h1, h2, except_ok_bind, Except.ok.injEq] at h
      exact h ▸ invTP_general_fresh _

/-- The product rule preserves the invariant. -/
theorem handle_product_inv {vm : List (Nat × Var)} {t1 t2 : ExprType} {p1 p2 : Payload}
    {tp' : ExprType × Payload}
    (hi1 : InvTP (t1, p1)) (hi2 : InvTP (t2, p2))
    (h : handle_product vm (t1, p1) (t2, p2) = .ok tp') : InvTP tp' := by
  cases t1 with
  | CONSTANT =>
    obtain ⟨v1, rfl⟩ := hi1
    cases t2 with
    | CONSTANT =>
      obtain ⟨v2, rfl⟩ := hi2
      simp only [handle_product, asVal, except_ok_bind, Except.ok.injEq] at h
      exact h ▸ ⟨_, rfl⟩
    | LINEAR =>
      obtain ⟨r2, rfl, hnl, hlin⟩ := hi2
      simp only [handle_product] at h
      split at h
      · exact (Except.ok.inj h) ▸ ⟨_, rfl⟩
      · simp only [asVal, asRep, except_ok_bind, Except.ok.injEq] at h
        exact h ▸ ⟨_, rfl, hnl, hlin⟩
    | GENERAL =>
      obtain ⟨r2, rfl, hnl⟩ := hi2
      simp only [handle_product] at h
      split at h
      · exact (Except.ok.inj h) ▸ ⟨_, rfl⟩
      · simp only [asVal, asRep, except_ok_bind, Except.ok.injEq] at h
        exact h ▸ ⟨_, rfl, hnl⟩
  | LINEAR =>
    obtain ⟨r1, rfl, hnl, hlin⟩ := hi1
    cases t2 with
    | CONSTANT =>
      obtain ⟨v2, rfl⟩ := hi2
      simp only [handle_product] at h
      split at h
      · exact (Except.ok.inj h) ▸ ⟨_, rfl⟩
      · simp only [asVal, asRep, except_ok_bind, Except.ok.injEq] at h
        exact h ▸ ⟨_, rfl, hnl, hlin⟩
    | LINEAR => exact handle_product_nonlinear_inv h
    | GENERAL => exact handle_product_nonlinear_inv h
  | GENERAL =>
    obtain ⟨r1, rfl, hnl⟩ := hi1
    cases t2 with
    | CONSTANT =>
      obtain ⟨v2, rfl⟩ := hi2
      simp only [handle_product] at h
      split at h
      · exact (Except.ok.inj h) ▸ ⟨_, rfl⟩
      · simp only [asVal, asRep, except_ok_bind, Except.ok.injEq] at h
        exact h ▸ ⟨_, rfl, hnl⟩
    | LINEAR => exact handle_product_nonlinear_inv h
    | GENERAL => exact handle_product_nonlinear_inv h

/-- `handle_division_nonlinear` preserves the invariant. -/
theorem handle_division_nonlinear_inv {vm : List (Nat × Var)} {a1 a2 tp' : ExprType × Payload}
    (h : handle_division_nonlinear vm a1 a2 = .ok tp') : InvTP tp' := by
  unfold handle_division_nonlinear at h
  cases h1 : payload_to_expression vm a1 with
  | error e => simp [h1] at h
  | ok e1 =>
    cases h2 : payload_to_expression vm a2 with
    | error e => simp [h1, h2] at h
    | ok e2 =>
      simp only [h1, h2, except_ok_bind, Except.ok.injEq] at h
      exact h ▸ invTP_general_fresh _

/-- The division rule preserves the invariant. -/
theorem handle_division_inv {vm : List (Nat × Var)} {t1 t2 : ExprType} {p1 p2 : Payload}
    {tp' : ExprType × Payload}
    (hi1 : InvTP (t1, p1)) (hi2 : InvTP (t2, p2))
    (h : handle_division vm (t1, p1) (t2, p2) = .ok tp') : InvTP tp' := by
  cases t1 with
  | CONSTANT =>
    obtain ⟨v1, rfl⟩ := hi1
    cases t2 with
    | CONSTANT =>
      obtain ⟨v2, rfl⟩ := hi2
      simp only [handle_division, asVal, except_ok_bind] at h
      cases hdv : divV v1 v2 with
      | error e => simp [hdv] at h
      | ok v =>
        simp only [hdv, except_ok_bind, Except.ok.injEq] at h
        exact h ▸ ⟨_, rfl⟩
    | LINEAR => exact handle_division_nonlinear_inv h
    | GENERAL => exact handle_division_nonlinear_inv h
  | LINEAR =>
    obtain ⟨r1, rfl, hnl, hlin⟩ := hi1
    cases t2 with
    | CONSTANT =>
      obtain ⟨v2, rfl⟩ := hi2
      simp only [handle_division] at h
      split at h
      · exact (Except.ok.inj h) ▸ ⟨_, rfl⟩
      · simp only [asVal, asRep, except_ok_bind] at h
        cases hdv : divV r1.multiplier v2 with
        | error e => simp [hdv] at h
        | ok m =>
          simp only [hdv, except_ok_bind, Except.ok.injEq] at h
          exact h ▸ ⟨_, rfl, hnl, hlin⟩
    | LINEAR => exact handle_division_nonlinear_inv h
    | GENERAL => exact handle_division_nonlinear_inv h
  | GENERAL =>
    obtain ⟨r1, rfl, hnl⟩ := hi1
    cases t2 with
    | CONSTANT =>
      obtain ⟨v2, rfl⟩ := hi2
      simp only [handle_division] at h
      split at h
      · exact (Except.ok.inj h) ▸ ⟨_, rfl⟩
      · simp only [asVal, asRep, except_ok_bind] at h
        cases hdv : divV r1.multiplier v2 with
        | error e => simp [hdv] at h
        | ok m =>
          simp only [hdv, except_ok_bind, Except.ok.injEq] at h
          exact h ▸ ⟨_, rfl, hnl⟩
    | LINEAR => exact handle_division_nonlinear_inv h
    | GENERAL => exact handle_division_nonlinear_inv h

/-- `handle_expr_if_nonlinear` preserves the invariant. -/
theorem handle_expr_if_nonlinear_inv {vm : List (Nat × Var)} {a1 a2 a3 tp' : ExprType × Payload}
    (h : handle_expr_if_nonlinear vm a1 a2 a3 = .ok tp') : InvTP tp' := by
  unfold handle_expr_if_nonlinear at h
  cases h1 : payload_to_expression vm a1 with
  | error e => simp [h1] at h
  | ok e1 =>
    cases h2 : payload_to_expression vm a2 with
    | error e => simp [h1, h2] at h
    | ok e2 =>
      cases h3 : payload_to_expression vm a3 with
      | error e => simp [h1, h2, h3] at h
      | ok e3 =>
        simp only [h1, h2, h3, except_ok_bind, Except.ok.injEq] at h
        exact h ▸ invTP_general_fresh _

/-- The conditional rule preserves the invariant: a constant test selects
one of the (already invariant) branch results, everything else is a fresh
GENERAL result. -/
theorem handle_expr_if_inv {vm : List (Nat × Var)} {a1 a2 a3 tp' : ExprType × Payload}
    (hi2 : InvTP a2) (hi3 : InvTP a3)
    (h : handle_expr_if vm a1 a2 a3 = .ok tp') : InvTP tp' := by
  unfold handle_expr_if at h
  split at h
  · split at h
    · split at h
      · exact handle_expr_if_nonlinear_inv h
      · exact (Except.ok.inj h) ▸ hi2
    · exact (Except.ok.inj h) ▸ hi3
  · exact handle_expr_if_nonlinear_inv h

/-- `_before_var` produces an invariant-satisfying pair and never touches
the subexpression cache. -/
theorem before_var_inv (x : Var) (s : VState) :
    InvTP (before_var x s).1 ∧ (before_var x s).2.cache = s.cache := by
  unfold before_var
  cases halGet : alGet s.var_map x.vid with
  | some w =>
    refine ⟨?_, rfl⟩
    exact ⟨{ LinearRepn.init with linear := [(x.vid, .num 1)] }, rfl, rfl, by simp⟩
  | none =>
    by_cases hf : x.fixed
    · rw [if_pos hf]
      refine ⟨?_, rfl⟩
      exact ⟨x.val, rfl⟩
    · rw [if_neg hf]
      refine ⟨?_, rfl⟩
      exact ⟨{ LinearRepn.init with linear := [(x.vid, .num 1)] }, rfl, rfl, by simp⟩

/-- `_before_monomial`'s core produces an invariant-satisfying pair and
never touches the subexpression cache. -/
theorem mono_core_inv (cv : PyVal) (x : Var) (s : VState) :
    InvTP (mono_core cv x s).1 ∧ (mono_core cv x s).2.cache = s.cache := by
  unfold mono_core
  by_cases hz : (!(truthyV cv) || isNaNV cv : Bool)
  · rw [if_pos hz]
    exact ⟨⟨cv, rfl⟩, rfl⟩
  · rw [if_neg hz]
    cases halGet : alGet s.var_map x.vid with
    | some w =>
      refine ⟨?_, rfl⟩
      exact ⟨{ LinearRepn.init with linear := [(x.vid, cv)] }, rfl, rfl, by simp⟩
    | none =>
      by_cases hf : x.fixed
      · rw [if_pos hf]
        exact ⟨⟨mulV cv x.val, rfl⟩, rfl⟩
      · rw [if_neg hf]
        refine ⟨?_, rfl⟩
        exact ⟨{ LinearRepn.init with linear := [(x.vid, cv)] }, rfl, rfl, by simp⟩

/-- `_before_linear`'s fold only ever extends the variable registry; the
subexpression cache is untouched. -/
theorem linear_fold_cache (fuel : Nat) :
    ∀ (args : List Expr) (const : PyVal) (lin : List (Nat × PyVal)) (s : VState)
      (const2 : PyVal) (lin2 : List (Nat × PyVal)) (s2 : VState),
      linear_fold fuel args const lin s = .done const2 lin2 s2 → s2.cache = s.cache := by
  intro args
  induction args with
  | nil =>
    intro const lin s const2 lin2 s2 h
    simp only [linear_fold] at h
    cases h
    rfl
  | cons a rest ih =>
    intro const lin s const2 lin2 s2 h
    cases a with
    | monomial c x =>
      simp only [linear_fold] at h
      split at h
      · cases h
      · rename_i cv
        split at h
        · exact (ih _ _ _ _ _ _ h).trans rfl
        · split at h
          · exact (ih _ _ _ _ _ _ h).trans rfl
          · split at h
            · split at h
              · exact (ih _ _ _ _ _ _ h).trans rfl
              · exact (ih _ _ _ _ _ _ h).trans rfl
            · split at h
              · exact (ih _ _ _ _ _ _ h).trans rfl
              · exact (ih _ _ _ _ _ _ h).trans rfl
    | const v =>
      simp only [linear_fold] at h
      exact (ih _ _ _ _ _ _ h).trans rfl
    | neg e =>
      simp only [linear_fold] at h
      split at h
      · exact (ih _ _ _ _ _ _ h).trans rfl
      · cases h
    | var x =>
      simp only [linear_fold] at h
      split at h
      · exact (ih _ _ _ _ _ _ h).trans rfl
      · cases h
    | sum l =>
      simp only [linear_fold] at h
      split at h
      · exact (ih _ _ _ _ _ _ h).trans rfl
      · cases h
    | prod e1 e2 =>
      simp only [linear_fold] at h
      split at h
      · exact (ih _ _ _ _ _ _ h).trans rfl
      · cases h
    | div e1 e2 =>
      simp only [linear_fold] at h
      split at h
      · exact (ih _ _ _ _ _ _ h).trans rfl
      · cases h
    | linear l =>
      simp only [linear_fold] at h
      split at h
      · exact (ih _ _ _ _ _ _ h).trans rfl
      · cases h
    | exprIf t1 t2 t3 =>
      simp only [linear_fold] at h
      split at h
      · exact (ih _ _ _ _ _ _ h).trans rfl
      · cases h
    | external fid l =>
      simp only [linear_fold] at h
      split at h
      · exact (ih _ _ _ _ _ _ h).trans rfl
      · cases h
    | named nid body =>
      simp only [linear_fold] at h
      split at h
      · exact (ih _ _ _ _ _ _ h).trans rfl
      · cases h

/-- A successful association-list lookup locates a member of the list. -/
theorem alGet_mem {α : Type} :
    ∀ (l : List (Nat × α)) (k : Nat) (v : α), alGet l k = some v → (k, v) ∈ l := by
  intro l
  induction l with
  | nil => intro k v h; simp [alGet] at h
  | cons p rest ih =>
    intro k v h
    obtain ⟨k', a⟩ := p
    simp only [alGet] at h
    split at h
    · rename_i heq
      cases h
      exact heq ▸ List.mem_cons_self _ _
    · exact List.mem_cons_of_mem _ (ih _ _ h)

/-- Every member of an updated association list is the new pair or an old
member. -/
theorem mem_alSet {α : Type} :
    ∀ (l : List (Nat × α)) (k : Nat) (v : α) (p : Nat × α),
      p ∈ alSet l k v → p = (k, v) ∨ p ∈ l := by
  intro l
  induction l with
  | nil =>
    intro k v p h
    simp only [alSet, List.mem_singleton] at h
    exact Or.inl h
  | cons q rest ih =>
    intro k v p h
    obtain ⟨k', a⟩ := q
    simp only [alSet] at h
    split at h
    · rcases List.mem_cons.mp h with h1 | h1
      · exact Or.inl h1
      · exact Or.inr (List.mem_cons_of_mem _ h1)
    · rcases List.mem_cons.mp h with h1 | h1
      · exact Or.inr (h1 ▸ List.mem_cons_self _ _)
      · rcases ih _ _ _ h1 with h2 | h2
        · exact Or.inl h2
        · exact Or.inr (List.mem_cons_of_mem _ h2)

/-- Inversion of a successful `Except` bind. -/
theorem except_bind_ok {ε α β : Type} {x : Except ε α} {f : α → Except ε β} {b : β}
    (h : (x >>= f) = .ok b) : ∃ a, x = .ok a ∧ f a = .ok b := by
  cases x with
  | ok a => exact ⟨a, rfl, h⟩
  | error e => exact Except.noConfusion (show Except.error e = Except.ok b from h)

/-- Inversion of a successful `Except` bind whose value is a pair. -/
theorem except_bind_ok_pair {ε α β γ : Type} {x : Except ε (α × β)} {f : α × β → Except ε γ}
    {c : γ} (h : (x >>= f) = .ok c) : ∃ a b, x = .ok (a, b) ∧ f (a, b) = .ok c := by
  obtain ⟨⟨a, b⟩, h1, h2⟩ := except_bind_ok h
  exact ⟨a, b, h1, h2⟩

/-- The invariant and state well-formedness are preserved by every
successful walk: each classified pair the walk returns satisfies the
classification invariant, and the subexpression cache only ever receives
invariant-satisfying entries. -/
theorem walkL_inv :
    ∀ (fuel : Nat) (l : List Expr) (s : VState) (tps : List (ExprType × Payload)) (s' : VState),
      WFS s → walkL fuel l s = .ok (tps, s') → (∀ q ∈ tps, InvTP q) ∧ WFS s' := by
  intro fuel
  induction fuel with
  | zero =>
    intro l s tps s' hw h
    cases l with
    | nil =>
      simp only [walkL, Except.ok.injEq, Prod.mk.injEq] at h
      obtain ⟨rfl, rfl⟩ := h
      exact ⟨fun q hq => absurd hq (List.not_mem_nil q), hw⟩
    | cons e rest => simp [walkL] at h
  | succ fuel ih =>
    intro l s tps s' hw h
    cases l with
    | nil =>
      simp only [walkL, Except.ok.injEq, Prod.mk.injEq] at h
      obtain ⟨rfl, rfl⟩ := h
      exact ⟨fun q hq => absurd hq (List.not_mem_nil q), hw⟩
    | cons e rest =>
    simp only [walkL] at h
    obtain ⟨tp, s1, hH, hT⟩ := except_bind_ok_pair h
    obtain ⟨tps2, s2, hR, hP⟩ := except_bind_ok_pair hT
    have hPe := Except.ok.inj hP
    rw [Prod.mk.injEq] at hPe
    obtain ⟨rfl, rfl⟩ := hPe
    have hhead : InvTP tp ∧ WFS s1 := by
      clear hT hR hP
      cases e with
      | const v =>
        dsimp only at hH
        have he := Except.ok.inj hH
        rw [Prod.mk.injEq] at he
        obtain ⟨rfl, rfl⟩ := he
        exact ⟨⟨v, rfl⟩, hw⟩
      | var x =>
        dsimp only at hH
        have he := Except.ok.inj hH
        rw [Prod.mk.injEq] at he
        obtain ⟨rfl, rfl⟩ := he
        obtain ⟨hi, hc⟩ := before_var_inv x s
        exact ⟨hi, by unfold WFS; rw [hc]; exact hw⟩
      | monomial c x =>
        dsimp only at hH
        rcases hcv : (match c with
          | .const cv => (Except.ok cv : Except Unit PyVal)
          | _ => match evalE fuel c with
            | .ok cv => .ok cv
            | .error _ => .error ()) with cv | u
        · rw [hcv] at hH
          obtain ⟨tps3, s3, hW, hK⟩ := except_bind_ok_pair hH
          exact Except.noConfusion (show Except.error PErr.keyError = Except.ok (tp, s1) from hK)
        · rw [hcv] at hH
          have he := Except.ok.inj hH
          rw [Prod.mk.injEq] at he
          obtain ⟨rfl, rfl⟩ := he
          obtain ⟨hi, hc⟩ := mono_core_inv u x s
          exact ⟨hi, by unfold WFS; rw [hc]; exact hw⟩
      | linear args =>
        dsimp only at hH
        rcases hlf : linear_fold fuel args (.num 0) [] s with ⟨const2, lin2, s3⟩ | _
        · rw [hlf] at hH
          dsimp only at hH
          have hc3 : s3.cache = s.cache := linear_fold_cache fuel args _ _ _ _ _ _ hlf
          by_cases hle : lin2.isEmpty
          · rw [if_pos hle] at hH
            have he := Except.ok.inj hH
            rw [Prod.mk.injEq] at he
            obtain ⟨rfl, rfl⟩ := he
            exact ⟨⟨const2, rfl⟩, by unfold WFS; rw [hc3]; exact hw⟩
          · rw [if_neg hle] at hH
            have he := Except.ok.inj hH
            rw [Prod.mk.injEq] at he
            obtain ⟨rfl, rfl⟩ := he
            refine ⟨⟨{ LinearRepn.init with constant := const2, linear := lin2 }, rfl, rfl, ?_⟩,
              by unfold WFS; rw [hc3]; exact hw⟩
            simpa [List.isEmpty_iff] using hle
        · rw [hlf] at hH
          obtain ⟨tps3, s3, hW, hK⟩ := except_bind_ok_pair hH
          exact Except.noConfusion (show Except.error PErr.keyError = Except.ok (tp, s1) from hK)
      | sum args =>
        dsimp only at hH
        obtain ⟨tps3, s3, hW, hF⟩ := except_bind_ok_pair hH
        obtain ⟨acc, hacc, hE⟩ := except_bind_ok hF
        have he := Except.ok.inj hE
        rw [Prod.mk.injEq] at he
        obtain ⟨rfl, rfl⟩ := he
        obtain ⟨_, hwf3⟩ := ih _ _ _ _ hw hW
        exact ⟨invTP_walker_exitNode acc, hwf3⟩
      | neg a =>
        dsimp only at hH
        obtain ⟨tps3, s3, hW, hM⟩ := except_bind_ok_pair hH
        obtain ⟨hinv3, hwf3⟩ := ih _ _ _ _ hw hW
        match tps3, hM with
        | [tp1], hM => 
          obtain ⟨tpn, hN, hO⟩ := except_bind_ok hM
          have he := Except.ok.inj hO
          rw [Prod.mk.injEq] at he
          obtain ⟨rfl, rfl⟩ := he
          exact ⟨handle_negation_inv (hinv3 tp1 (by simp)) hN, hwf3⟩
      | prod a b =>
        dsimp only at hH
        obtain ⟨tps3, s3, hW, hM⟩ := except_bind_ok_pair hH
        obtain ⟨hinv3, hwf3⟩ := ih _ _ _ _ hw hW
        match tps3, hM with
        | [tp1, tp2], hM =>
          obtain ⟨tpn, hN, hO⟩ := except_bind_ok hM
          have he := Except.ok.inj hO
          rw [Prod.mk.injEq] at he
          obtain ⟨rfl, rfl⟩ := he
          obtain ⟨t1, p1⟩ := tp1
          obtain ⟨t2, p2⟩ := tp2
          exact ⟨handle_product_inv (hinv3 _ (by simp)) (hinv3 _ (by simp)) hN, hwf3⟩
      | div a b =>
        dsimp only at hH
        obtain ⟨tps3, s3, hW, hM⟩ := except_bind_ok_pair hH
        obtain ⟨hinv3, hwf3⟩ := ih _ _ _ _ hw hW
        match tps3, hM with
        | [tp1, tp2], hM =>
          obtain ⟨tpn, hN, hO⟩ := except_bind_ok hM
          have he := Except.ok.inj hO
          rw [Prod.mk.injEq] at he
          obtain ⟨rfl, rfl⟩ := he
          obtain ⟨t1, p1⟩ := tp1
          obtain ⟨t2, p2⟩ := tp2
          exact ⟨handle_division_inv (hinv3 _ (by simp)) (hinv3 _ (by simp)) hN, hwf3⟩
      | exprIf t a b =>
        dsimp only at hH
        obtain ⟨u, hPre, hH2⟩ := except_bind_ok hH
        obtain ⟨tps3, s3, hW, hM⟩ := except_bind_ok_pair hH2
        obtain ⟨hinv3, hwf3⟩ := ih _ _ _ _ hw hW
        match tps3, hM with
        | [r1, r2, r3], hM =>
          obtain ⟨tpn, hN, hO⟩ := except_bind_ok hM
          have he := Except.ok.inj hO
          rw [Prod.mk.injEq] at he
          obtain ⟨rfl, rfl⟩ := he
          exact ⟨handle_expr_if_inv (hinv3 r2 (by simp)) (hinv3 r3 (by simp)) hN, hwf3⟩
      | external fid args =>
        dsimp only at hH
        have he := Except.ok.inj hH
        rw [Prod.mk.injEq] at he
        obtain ⟨rfl, rfl⟩ := he
        exact ⟨invTP_general_fresh _, hw⟩
      | named nid body =>
        dsimp only at hH
        rcases hc : alGet s.cache nid with _ | ⟨tag, p⟩
        · rw [hc] at hH
          obtain ⟨tps3, s3, hW, hM⟩ := except_bind_ok_pair hH
          obtain ⟨hinv3, hwf3⟩ := ih _ _ _ _ hw hW
          match tps3, hM with
          | [(tag, p)], hM =>
            dsimp only at hM
            have hinv1 : InvTP (tag, p) := hinv3 _ (by simp)
            have hwf2 : WFS { s3 with cache := alSet s3.cache nid (tag, p) } := by
              intro q hq
              rcases mem_alSet _ _ _ _ hq with hq1 | hq1
              · rw [hq1]; exact hinv1
              · exact hwf3 q hq1
            by_cases ht : tag = ExprType.CONSTANT
            · rw [if_pos ht] at hM
              have he := Except.ok.inj hM
              rw [Prod.mk.injEq] at he
              obtain ⟨rfl, rfl⟩ := he
              exact ⟨hinv1, hwf2⟩
            · rw [if_neg ht] at hM
              cases p with
              | val v =>
                exact Except.noConfusion
                  (show Except.error PErr.attributeError = Except.ok (tp, s1) from hM)
              | rep r =>
                have he := Except.ok.inj hM
                rw [Prod.mk.injEq] at he
                obtain ⟨rfl, rfl⟩ := he
                exact ⟨show InvTP (tag, .rep r.duplicate) from hinv1, hwf2⟩
        · rw [hc] at hH
          dsimp only at hH
          have hinv1 : InvTP (tag, p) := hw _ (alGet_mem _ _ _ hc)
          by_cases ht : tag = ExprType.CONSTANT
          · rw [if_pos ht] at hH
            have he := Except.ok.inj hH
            rw [Prod.mk.injEq] at he
            obtain ⟨rfl, rfl⟩ := he
            exact ⟨hinv1, hw⟩
          · rw [if_neg ht] at hH
            cases p with
            | val v =>
              exact Except.noConfusion
                (show Except.error PErr.attributeError = Except.ok (tp, s1) from hH)
            | rep r =>
              have he := Except.ok.inj hH
              rw [Prod.mk.injEq] at he
              obtain ⟨rfl, rfl⟩ := he
              exact ⟨show InvTP (tag, .rep r.duplicate) from hinv1, hw⟩
    obtain ⟨hrest, hwf'⟩ := ih _ _ _ _ hhead.2 hR
    refine ⟨?_, hwf'⟩
    intro q hq
    rcases List.mem_cons.mp hq with rfl | hq2
    · exact hhead.1
    · exact hrest q hq2

/-- The single-expression form of the walk invariant. -/
theorem walkT_inv {fuel : Nat} {e : Expr} {s : VState} {tp : ExprType × Payload} {s' : VState}
    (hw : WFS s) (h : walkT fuel e s = .ok (tp, s')) : InvTP tp ∧ WFS s' := by
  unfold walkT at h
  cases hwl : walkL fuel [e] s with
  | error er => rw [hwl] at h; exact Except.noConfusion h
  | ok r =>
    obtain ⟨tps, s1⟩ := r
    rw [hwl] at h
    match tps, h with
    | [tp1], h =>
      have he := Except.ok.inj h
      rw [Prod.mk.injEq] at he
      obtain ⟨rfl, rfl⟩ := he
      obtain ⟨hall, hwf⟩ := walkL_inv fuel [e] s [tp1] s1 hw hwl
      exact ⟨hall tp1 (by simp), hwf⟩

/-- A lookup misses entirely when no key of the list matches. -/
theorem alGet_none_of_keys {α : Type} :
    ∀ (l : List (Nat × α)) (k : Nat), (∀ q ∈ l, q.1 ≠ k) → alGet l k = none := by
  intro l
  induction l with
  | nil => intro k _; rfl
  | cons q rest ih =>
    intro k h
    obtain ⟨kq, aq⟩ := q
    simp only [alGet]
    rw [if_neg (h (kq, aq) (List.mem_cons_self _ _))]
    exact ih k fun q hq => h q (List.mem_cons_of_mem _ hq)

/-- If an entry with a falsy value sits in an association list with
duplicate-free keys, filtering falsy values removes the key entirely. -/
theorem alGet_filter_truthy :
    ∀ (l : List (Nat × PyVal)), (l.map Prod.fst).Nodup →
      ∀ (vid : Nat) (c : PyVal), alGet l vid = some c →
        alGet (l.filter fun p => truthyV p.2) vid =
          (if truthyV c then some c else none) := by
  intro l
  induction l with
  | nil => intro _ vid c h; simp [alGet] at h
  | cons p rest ih =>
    intro hnd vid c h
    obtain ⟨k, a⟩ := p
    simp only [List.map_cons, List.nodup_cons] at hnd
    obtain ⟨hk, hnd2⟩ := hnd
    simp only [alGet] at h
    by_cases hkv : k = vid
    · subst hkv
      rw [if_pos rfl] at h
      cases h
      by_cases hta : truthyV c
      · rw [List.filter_cons_of_pos (by simpa using hta), if_pos hta]
        simp [alGet]
      · rw [List.filter_cons_of_neg (by simpa using hta), if_neg hta]
        refine alGet_none_of_keys _ _ ?_
        intro q hq hqk
        exact hk (hqk ▸ List.mem_map_of_mem Prod.fst (List.mem_of_mem_filter hq))
    · rw [if_neg hkv] at h
      by_cases hta : truthyV a
      · rw [List.filter_cons_of_pos (by simpa using hta)]
        simp only [alGet]
        rw [if_neg hkv]
        exact ih hnd2 vid c h
      · rw [List.filter_cons_of_neg (by simpa using hta)]
        exact ih hnd2 vid c h

/-- The analogue for the multiplier-distributing branch of finalization:
filtering falsy coefficients and scaling the survivors. -/
theorem alGet_filterMap_scale (mult : PyVal) :
    ∀ (l : List (Nat × PyVal)), (l.map Prod.fst).Nodup →
      ∀ (vid : Nat) (c : PyVal), alGet l vid = some c →
        alGet (l.filterMap fun p => if truthyV p.2 then some (p.1, mulV p.2 mult) else none) vid =
          (if truthyV c then some (mulV c mult) else none) := by
  intro l
  induction l with
  | nil => intro _ vid c h; simp [alGet] at h
  | cons p rest ih =>
    intro hnd vid c h
    obtain ⟨k, a⟩ := p
    simp only [List.map_cons, List.nodup_cons] at hnd
    obtain ⟨hk, hnd2⟩ := hnd
    simp only [alGet] at h
    by_cases hkv : k = vid
    · subst hkv
      rw [if_pos rfl] at h
      cases h
      simp only [List.filterMap_cons]
      by_cases hta : truthyV c
      · rw [if_pos hta, if_pos hta]
        simp [alGet]
      · rw [if_neg hta, if_neg hta]
        refine alGet_none_of_keys _ _ ?_
        intro q hq hqk
        obtain ⟨w, hw1, hw2⟩ := List.mem_filterMap.mp hq
        by_cases htw : truthyV w.2
        · rw [if_pos htw] at hw2
          cases hw2
          apply hk
          rw [← hqk]
          show Prod.fst w ∈ List.map Prod.fst rest
          exact List.mem_map_of_mem Prod.fst hw1
        · rw [if_neg htw] at hw2
          cases hw2
    · rw [if_neg hkv] at h
      simp only [List.filterMap_cons]
      by_cases hta : truthyV a
      · rw [if_pos hta]
        simp only [alGet]
        rw [if_neg hkv]
        exact ih hnd2 vid c h
      · rw [if_neg hta]
        exact ih hnd2 vid c h

/-- Reading below the length of the left part of an append. -/
theorem lget_append_left {α : Type} :
    ∀ (l1 l2 : List α) (n : Nat), n < l1.length → (l1 ++ l2).get? n = l1.get? n := by
  intro l1
  induction l1 with
  | nil => intro l2 n h; cases h
  | cons x xs ih =>
    intro l2 n h
    cases n with
    | zero => rfl
    | succ m => exact ih l2 m (Nat.lt_of_succ_lt_succ h)

/-- Reading the freshly appended cell. -/
theorem lget_concat_self {α : Type} :
    ∀ (l : List α) (a : α), (l ++ [a]).get? l.length = some a := by
  intro l
  induction l with
  | nil => intro a; rfl
  | cons x xs ih => intro a; exact ih a

/-- A successful read is in bounds. -/
theorem lget_some_lt {α : Type} :
    ∀ (l : List α) (n : Nat) (x : α), l.get? n = some x → n < l.length := by
  intro l
  induction l with
  | nil => intro n x h; cases h
  | cons y ys ih =>
    intro n x h
    cases n with
    | zero => exact Nat.succ_pos _
    | succ m => exact Nat.succ_lt_succ (ih m x h)

/-- Updating one cell leaves every other cell unchanged. -/
theorem lget_lupdate_ne {α : Type} :
    ∀ (l : List α) (n m : Nat) (f : α → α), n ≠ m → (lupdate l n f).get? m = l.get? m := by
  intro l
  induction l with
  | nil => intro n m f _; cases n <;> rfl
  | cons x xs ih =>
    intro n m f hne
    cases n with
    | zero =>
      cases m with
      | zero => exact absurd rfl hne
      | succ k => rfl
    | succ n2 =>
      cases m with
      | zero => rfl
      | succ k => exact ih n2 k f (fun hh => hne (hh ▸ rfl))

/-- Looking up the key just stored. -/
theorem alGet_alSet_self {α : Type} :
    ∀ (l : List (Nat × α)) (k : Nat) (v : α), alGet (alSet l k v) k = some v := by
  intro l
  induction l with
  | nil => intro k v; simp [alSet, alGet]
  | cons p rest ih =>
    intro k v
    obtain ⟨k2, a⟩ := p
    simp only [alSet]
    by_cases hk : k2 = k
    · rw [if_pos hk]
      simp [alGet]
    · rw [if_neg hk]
      simp only [alGet]
      rw [if_neg hk]
      exact ih k v

/-- Mutating the multiplier of one repn object leaves the observable
content of every other address unchanged. -/
theorem obsRepn_setMultH_ne (h : Heap) (a1 a : Nat) (v : PyVal) (hne : a1 ≠ a) :
    obsRepn (setMultH h a1 v) a = obsRepn h a := by
  unfold obsRepn setMultH readRepn readDict
  rw [lget_lupdate_ne _ _ _ _ hne]

/-- Mutating the linear dict of a repn whose dict address differs leaves
the observable content of the other address unchanged. -/
theorem obsRepn_setLinH_ne (h : Heap) (a1 a : Nat) (k : Nat) (v : PyVal)
    (o1 o : RepnObj) (h1 : readRepn h a1 = some o1) (ho : readRepn h a = some o)
    (hne : o1.linearRef ≠ o.linearRef) :
    obsRepn (setLinH h a1 k v) a = obsRepn h a := by
  unfold setLinH
  rw [h1]
  unfold readRepn at ho
  unfold obsRepn readRepn readDict
  rw [show ({ h with dicts := lupdate h.dicts o1.linearRef fun d => alSet d k v } : Heap).repns
      = h.repns from rfl]
  rw [ho]
  simp only [Option.map_some']
  rw [lget_lupdate_ne _ _ _ _ hne]

/-- Allocating fresh objects leaves the observable content of an existing
address unchanged. -/
theorem obsRepn_append (h : Heap) (o2 : RepnObj) (d2 : List (Nat × PyVal)) (a : Nat)
    (o : RepnObj) (ho : readRepn h a = some o) (hlr : o.linearRef < h.dicts.length) :
    obsRepn { repns := h.repns ++ [o2], dicts := h.dicts ++ [d2] } a = obsRepn h a := by
  have ha : a < h.repns.length := lget_some_lt _ _ _ ho
  unfold readRepn at ho
  unfold obsRepn readRepn readDict
  rw [show ({ repns := h.repns ++ [o2], dicts := h.dicts ++ [d2] } : Heap).repns
      = h.repns ++ [o2] from rfl]
  rw [lget_append_left _ _ _ ha, ho]
  simp only [Option.map_some']
  rw [lget_append_left _ _ _ hlr]

/-- Claim C8: when a named/shared subexpression classifies LINEAR or
GENERAL, the `(classification, payload)` pair committed to the
subexpression cache is never mutated afterwards.  On the heap model:
`_handle_named_ANY` commits the original payload address and hands the
caller a fresh duplicate with a fresh linear dict, so in-place multiplier
or linear-dict mutation on the caller's copy (and on every later
cache-hit copy, each itself a fresh duplicate) leaves the cached entry's
observable content — and every other consumer's copy — unchanged. -/
theorem C8_cache_entry_isolation
    (h : Heap) (cache : HCache) (nid : Nat) (tag : ExprType) (a : Nat)
    (o : RepnObj) (d : List (Nat × PyVal))
    (h1 : Heap) (cache1 : HCache) (tag1 : ExprType) (a1 : Nat)
    (ho : readRepn h a = some o) (hd : readDict h o.linearRef = some d)
    (hcall : handle_named_ANY_H h cache nid tag a = some (h1, cache1, (tag1, a1))) :
    alGet cache1 nid = some (tag, a) ∧
    tag1 = tag ∧ a1 ≠ a ∧
    obsRepn h1 a = obsRepn h a ∧
    (∀ v, obsRepn (setMultH h1 a1 v) a = obsRepn h1 a) ∧
    (∀ k v, obsRepn (setLinH h1 a1 k v) a = obsRepn h1 a) ∧
    (∀ h2 tag2 a2, before_named_hit_H h1 cache1 nid = some (h2, (tag2, a2)) →
      tag2 = tag ∧ a2 ≠ a ∧ a2 ≠ a1 ∧
      obsRepn h2 a = obsRepn h1 a ∧ obsRepn h2 a1 = obsRepn h1 a1 ∧
      (∀ v, obsRepn (setMultH h2 a2 v) a = obsRepn h2 a ∧
            obsRepn (setMultH h2 a2 v) a1 = obsRepn h2 a1) ∧
      (∀ k v, obsRepn (setLinH h2 a2 k v) a = obsRepn h2 a ∧
              obsRepn (setLinH h2 a2 k v) a1 = obsRepn h2 a1)) := by
  have ha : a < h.repns.length := lget_some_lt _ _ _ ho
  have hlr : o.linearRef < h.dicts.length := lget_some_lt _ _ _ hd
  unfold handle_named_ANY_H duplicateH at hcall
  simp only [ho] at hcall
  simp only [hd] at hcall
  have hc2 := Option.some.inj hcall
  simp only [Prod.mk.injEq] at hc2
  obtain ⟨eh1, eh2, eh3, eh4⟩ := hc2
  have hread1 : readRepn h1 a = some o := by
    rw [← eh1]
    show (h.repns ++ [{ o with linearRef := h.dicts.length }]).get? a = some o
    rw [lget_append_left _ _ _ ha]
    exact ho
  have hdict1 : readDict h1 o.linearRef = some d := by
    rw [← eh1]
    show (h.dicts ++ [d]).get? o.linearRef = some d
    rw [lget_append_left _ _ _ hlr]
    exact hd
  have hread1a : readRepn h1 a1 = some { o with linearRef := h.dicts.length } := by
    rw [← eh1, ← eh4]
    show (h.repns ++ [{ o with linearRef := h.dicts.length }]).get? h.repns.length = some _
    exact lget_concat_self _ _
  have hne1 : a1 ≠ a := by
    rw [← eh4]
    omega
  have hlrne : ({ o with linearRef := h.dicts.length } : RepnObj).linearRef ≠ o.linearRef := by
    show h.dicts.length ≠ o.linearRef
    omega
  refine ⟨?_, eh3.symm, hne1, ?_, ?_, ?_, ?_⟩
  · rw [← eh2]
    exact alGet_alSet_self _ _ _
  · rw [← eh1]
    exact obsRepn_append h _ _ a o ho hlr
  · intro v
    exact obsRepn_setMultH_ne h1 a1 a v hne1
  · intro k v
    exact obsRepn_setLinH_ne h1 a1 a k v _ o hread1a hread1 hlrne
  · intro h2 tag2 a2 hhit
    have hcget : alGet cache1 nid = some (tag, a) := by
      rw [← eh2]
      exact alGet_alSet_self _ _ _
    unfold before_named_hit_H duplicateH at hhit
    rw [hcget] at hhit
    simp only [hread1] at hhit
    simp only [hdict1] at hhit
    have hc3 := Option.some.inj hhit
    simp only [Prod.mk.injEq] at hc3
    obtain ⟨ei1, ei2, ei3⟩ := hc3
    have halt : a < h1.repns.length := lget_some_lt _ _ _ hread1
    have ha1lt : a1 < h1.repns.length := lget_some_lt _ _ _ hread1a
    have hlrlt : o.linearRef < h1.dicts.length := lget_some_lt _ _ _ hdict1
    have hlr1lt : h.dicts.length < h1.dicts.length := by
      rw [← eh1]
      show h.dicts.length < (h.dicts ++ [d]).length
      simp
    have hne2 : a2 ≠ a := by
      rw [← ei3]
      omega
    have hne3 : a2 ≠ a1 := by
      rw [← ei3]
      omega
    have hread2a2 : readRepn h2 a2 = some { o with linearRef := h1.dicts.length } := by
      rw [← ei1, ← ei3]
      show (h1.repns ++ [{ o with linearRef := h1.dicts.length }]).get? h1.repns.length = some _
      exact lget_concat_self _ _
    have hread2a1 : readRepn h2 a1 = some { o with linearRef := h.dicts.length } := by
      rw [← ei1]
      show (h1.repns ++ [{ o with linearRef := h1.dicts.length }]).get? a1 = some _
      rw [lget_append_left _ _ _ ha1lt]
      exact hread1a
    have hread2a : readRepn h2 a = some o := by
      rw [← ei1]
      show (h1.repns ++ [{ o with linearRef := h1.dicts.length }]).get? a = some o
      rw [lget_append_left _ _ _ halt]
      exact hread1
    have hdne1 : ({ o with linearRef := h1.dicts.length } : RepnObj).linearRef
        ≠ o.linearRef := by
      show h1.dicts.length ≠ o.linearRef
      omega
    have hdne2 : ({ o with linearRef := h1.dicts.length } : RepnObj).linearRef
        ≠ ({ o with linearRef := h.dicts.length } : RepnObj).linearRef := by
      show h1.dicts.length ≠ h.dicts.length
      omega
    refine ⟨ei2.symm, hne2, hne3, ?_, ?_, ?_, ?_⟩
    · rw [← ei1]
      exact obsRepn_append h1 _ _ a o hread1 hlrlt
    · rw [← ei1]
      exact obsRepn_append h1 _ _ a1 _ hread1a hlr1lt
    · intro v
      exact ⟨obsRepn_setMultH_ne h2 a2 a v hne2, obsRepn_setMultH_ne h2 a2 a1 v hne3⟩
    · intro k v
      exact ⟨obsRepn_setLinH_ne h2 a2 a k v _ o hread2a2 hread2a hdne1,
        obsRepn_setLinH_ne h2 a2 a1 k v _ _ hread2a2 hread2a1 hdne2⟩

/-- A registered identity makes `_before_var` return LINEAR with
coefficient 1 and leave the state untouched, whatever the current fixed
flag or value of the variable object. -/
theorem walkT_var_registered (fuel : Nat) (s : VState) (x : Var) (w : Var)
    (h : alGet s.var_map x.vid = some w) :
    walkT (fuel + 1) (.var x) s =
      .ok ((.LINEAR, .rep { LinearRepn.init with linear := [(x.vid, .num 1)] }), s) := by
  have hb : before_var x s =
      ((.LINEAR, .rep { LinearRepn.init with linear := [(x.vid, .num 1)] }), s) := by
    unfold before_var
    rw [h]
  unfold walkT
  simp only [walkL, hb, except_ok_bind, except_pure_eq]

/-- A registered identity makes `_before_monomial` with a non-zero,
non-NaN native coefficient return LINEAR with that coefficient and leave
the state untouched, whatever the current fixed flag of the variable. -/
theorem walkT_monomial_registered (fuel : Nat) (s : VState) (x : Var) (w : Var) (cv : PyVal)
    (h : alGet s.var_map x.vid = some w) (ht : truthyV cv = true) (hn : isNaNV cv = false) :
    walkT (fuel + 1) (.monomial (.const cv) x) s =
      .ok ((.LINEAR, .rep { LinearRepn.init with linear := [(x.vid, cv)] }), s) := by
  have hm : mono_core cv x s =
      ((.LINEAR, .rep { LinearRepn.init with linear := [(x.vid, cv)] }), s) := by
    unfold mono_core
    simp [ht, hn, h]
  unfold walkT
  simp only [walkL, hm, except_ok_bind, except_pure_eq]

/-- A registered identity inside a `LinearExpression` term with a
non-zero, non-NaN native coefficient lands in the linear dict, whatever
the current fixed flag of the variable. -/
theorem walkT_linear_single_registered (fuel : Nat) (s : VState) (x : Var) (w : Var)
    (cv : PyVal)
    (h : alGet s.var_map x.vid = some w) (ht : truthyV cv = true) (hn : isNaNV cv = false) :
    walkT (fuel + 1) (.linear [.monomial (.const cv) x]) s =
      .ok ((.LINEAR, .rep { LinearRepn.init with constant := .num 0, linear := [(x.vid, cv)] }),
           s) := by
  have hlf : linear_fold fuel [.monomial (.const cv) x] (.num 0) [] s =
      .done (.num 0) [(x.vid, cv)] s := by
    unfold linear_fold
    simp [ht, hn, h, alGet, linear_fold]
  unfold walkT
  simp only [walkL, hlf, except_ok_bind, except_pure_eq]
  simp [List.isEmpty]

/-- Claim C1 (code defect): finalization must distribute the pending
multiplier into the constant and absorb it (multiplier 1) before the
result crosses the component boundary.  The source's `finalizeResult`
scales the linear coefficients and the nonlinear term but leaves
`constant` unscaled and `multiplier` in place: classifying `-(x + 1)`
returns multiplier -1, constant 1 (not -1), linear `{x: -1}`. -/
theorem C1_finalize_leaves_multiplier :
    classify 9 (.neg (.sum [.var ⟨0, false, .num 3⟩, .const (.num 1)])) VState.init =
      .ok ({ multiplier := .num (-1), constant := .num 1,
             linear := [(0, .num (-1))], nonlinear := none },
           { var_map := [(0, ⟨0, false, .num 3⟩)], cache := [] }) := rfl

/-- Claim C2 (code defect): `_before_expr_if` references the undefined
name `self` (instead of `visitor`).  A conditional whose test is a
callable, evaluable fixed expression (here a fixed variable with value 1)
raises `NameError` instead of classifying the selected branch; a
conditional whose test is a native constant is not callable, the
`TypeError` from `test()` is swallowed and the node descends generically,
walking BOTH branches — so `Expr_if(1, y, z)` registers the unselected
`z` (identity 2) in the variable registry, contrary to the claim. -/
theorem C2_expr_if_code_behavior :
    classify 9 (.exprIf (.var ⟨0, true, .num 1⟩) (.var ⟨1, false, .num 0⟩)
        (.var ⟨2, false, .num 0⟩)) VState.init = .error .nameError ∧
    classify 9 (.exprIf (.const (.num 1)) (.var ⟨1, false, .num 0⟩)
        (.var ⟨2, false, .num 0⟩)) VState.init =
      .ok ({ multiplier := .num 1, constant := .num 0, linear := [(1, .num 1)],
             nonlinear := none },
           { var_map := [(1, ⟨1, false, .num 0⟩), (2, ⟨2, false, .num 0⟩)], cache := [] }) :=
  ⟨rfl, rfl⟩

/-- Claim C3 (code defect): `_before_external` references the undefined
name `test` inside its `try`; the bare `except: pass` swallows the
`NameError`, so an external call whose arguments are all fixed is NOT
classified CONSTANT with the evaluated result — every external call
classifies GENERAL with the call itself as the nonlinear payload. -/
theorem C3_external_always_general :
    classify 9 (.external 7 [.const (.num 2), .const (.num 3)]) VState.init =
      .ok ({ multiplier := .num 1, constant := .num 0, linear := [],
             nonlinear := some (.external 7 [.const (.num 2), .const (.num 3)]) },
           VState.init) := rfl

/-- Claim C4 counterexample: a `0 * (1/0)`-shaped expression does not
classify to CONSTANT NaN — the constant/constant division handler
performs a plain Python division, so the walk raises `ZeroDivisionError`
before the product's zero short-circuit is ever consulted. -/
theorem C4_zero_times_divzero_raises :
    classify 9 (.prod (.const (.num 0)) (.div (.const (.num 1)) (.const (.num 0))))
      VState.init = .error .zeroDivisionError := rfl

/-- Claim C4 as amended: when a product has one CONSTANT operand that is
exactly zero or NaN and one LINEAR or GENERAL operand, the product
classifies CONSTANT with that value without touching the other operand;
an ordinary constant scales the other operand's pending multiplier.
`nan * x` classifies to CONSTANT NaN (not 0, not dropped); a
`0 * (1/0)`-shaped expression raises `ZeroDivisionError` instead of
returning CONSTANT NaN. -/
theorem C4_product_constant_shortcircuit :
    (∀ (vm : List (Nat × Var)) (v : PyVal) (t2 : ExprType) (r2 : LinearRepn),
      t2 = ExprType.LINEAR ∨ t2 = ExprType.GENERAL →
      handle_product vm (.CONSTANT, .val v) (t2, .rep r2) =
        (if !(truthyV v) || isNaNV v then .ok (.CONSTANT, .val v)
         else .ok (t2, .rep { r2 with multiplier := mulV r2.multiplier v }))) ∧
    (∀ (vm : List (Nat × Var)) (v : PyVal) (t1 : ExprType) (r1 : LinearRepn),
      t1 = ExprType.LINEAR ∨ t1 = ExprType.GENERAL →
      handle_product vm (t1, .rep r1) (.CONSTANT, .val v) =
        (if !(truthyV v) || isNaNV v then .ok (.CONSTANT, .val v)
         else .ok (t1, .rep { r1 with multiplier := mulV r1.multiplier v }))) ∧
    classify 9 (.prod (.const .nan) (.var ⟨0, false, .num 3⟩)) VState.init =
      .ok ({ multiplier := .num 1, constant := .nan, linear := [], nonlinear := none },
           { var_map := [(0, ⟨0, false, .num 3⟩)], cache := [] }) ∧
    classify 9 (.prod (.const (.num 0)) (.div (.const (.num 1)) (.const (.num 0))))
      VState.init = .error .zeroDivisionError := by
  refine ⟨?_, ?_, rfl, rfl⟩
  · intro vm v t2 r2 h12
    rcases h12 with rfl | rfl <;> rfl
  · intro vm v t1 r1 h12
    rcases h12 with rfl | rfl <;> rfl

/-- Witness for C4: the zero constant short-circuits a LINEAR operand,
and an ordinary constant scales the multiplier. -/
theorem C4_product_constant_shortcircuit_witness :
    handle_product [] (.CONSTANT, .val (.num 0)) (.LINEAR, .rep LinearRepn.init) =
      .ok (.CONSTANT, .val (.num 0)) ∧
    handle_product [] (.LINEAR, .rep LinearRepn.init) (.CONSTANT, .val (.num 2)) =
      .ok (.LINEAR, .rep { LinearRepn.init with multiplier := .num 2 }) := by
  constructor
  · exact (C4_product_constant_shortcircuit.1 [] (.num 0) .LINEAR LinearRepn.init
      (Or.inl rfl)).trans (by rfl)
  · exact (C4_product_constant_shortcircuit.2.1 [] (.num 2) .LINEAR LinearRepn.init
      (Or.inl rfl)).trans (by rfl)

/-- Claim C5 counterexample: `x*0 + x*nan` does NOT retain a NaN entry
for `x` in the linear map.  `_before_monomial` traps a zero or NaN
coefficient before the variable is even inspected, so both terms
classify CONSTANT and the sum folds to constant NaN with an empty linear
map (and `x` never registered). -/
theorem C5_nan_monomial_folds_to_constant :
    classify 9 (.sum [.monomial (.const (.num 0)) ⟨0, false, .num 3⟩,
        .monomial (.const .nan) ⟨0, false, .num 3⟩]) VState.init =
      .ok ({ multiplier := .num 1, constant := .nan, linear := [], nonlinear := none },
           VState.init) ∧
    alGet ([] : List (Nat × PyVal)) 0 = none := ⟨rfl, rfl⟩

/-- Claim C5 as amended: finalization drops every linear entry whose
final coefficient is exactly zero and retains entries whose coefficient
is NaN (for any repn with duplicate-free keys); `x - x` classifies to
constant 0 with the variable absent from the linear map; but
`x*0 + x*nan` folds to constant NaN with no linear entry at all (the
monomial zero/NaN trap fires before the variable is consulted), rather
than retaining a NaN entry for `x`. -/
theorem C5_zero_prune_nan_retention :
    (∀ (r : LinearRepn) (vid : Nat), (r.linear.map Prod.fst).Nodup →
      alGet r.linear vid = some (.num 0) →
      ∀ rr, finalizeResult (.LINEAR, .rep r) = .ok rr → alGet rr.linear vid = none) ∧
    (∀ (r : LinearRepn) (vid : Nat), (r.linear.map Prod.fst).Nodup →
      alGet r.linear vid = some .nan →
      ∀ rr, finalizeResult (.LINEAR, .rep r) = .ok rr → alGet rr.linear vid = some .nan) ∧
    classify 9 (.sum [.var ⟨0, false, .num 3⟩,
        .monomial (.const (.num (-1))) ⟨0, false, .num 3⟩]) VState.init =
      .ok ({ multiplier := .num 1, constant := .num 0, linear := [], nonlinear := none },
           { var_map := [(0, ⟨0, false, .num 3⟩)], cache := [] }) ∧
    classify 9 (.sum [.monomial (.const (.num 0)) ⟨0, false, .num 3⟩,
        .monomial (.const .nan) ⟨0, false, .num 3⟩]) VState.init =
      .ok ({ multiplier := .num 1, constant := .nan, linear := [], nonlinear := none },
           VState.init) := by
  refine ⟨?_, ?_, rfl, rfl⟩
  · intro r vid hnd hz rr hrr
    unfold finalizeResult at hrr
    dsimp only at hrr
    by_cases hm : peq r.multiplier (.num 1)
    · rw [if_pos hm] at hrr
      cases Except.ok.inj hrr
      have h2 := alGet_filter_truthy r.linear hnd vid (.num 0) hz
      simpa [truthyV] using h2
    · rw [if_neg hm] at hrr
      cases Except.ok.inj hrr
      have h2 := alGet_filterMap_scale r.multiplier r.linear hnd vid (.num 0) hz
      simpa [truthyV] using h2
  · intro r vid hnd hz rr hrr
    unfold finalizeResult at hrr
    dsimp only at hrr
    by_cases hm : peq r.multiplier (.num 1)
    · rw [if_pos hm] at hrr
      cases Except.ok.inj hrr
      have h2 := alGet_filter_truthy r.linear hnd vid .nan hz
      simpa [truthyV] using h2
    · rw [if_neg hm] at hrr
      cases Except.ok.inj hrr
      have h2 := alGet_filterMap_scale r.multiplier r.linear hnd vid .nan hz
      simpa [truthyV, mulV] using h2

/-- Witness for C5: finalizing a repn whose linear dict holds a zero and
a NaN coefficient drops the zero entry and keeps the NaN entry. -/
theorem C5_zero_prune_nan_retention_witness :
    alGet [(1, PyVal.nan)] 0 = none ∧ alGet [(1, PyVal.nan)] 1 = some PyVal.nan := by
  constructor
  · exact C5_zero_prune_nan_retention.1
      { multiplier := .num 1, constant := .num 0,
        linear := [(0, .num 0), (1, .nan)], nonlinear := none }
      0 (by decide) rfl
      { multiplier := .num 1, constant := .num 0, linear := [(1, .nan)], nonlinear := none }
      rfl
  · exact C5_zero_prune_nan_retention.2.1
      { multiplier := .num 1, constant := .num 0,
        linear := [(0, .num 0), (1, .nan)], nonlinear := none }
      1 (by decide) rfl
      { multiplier := .num 1, constant := .num 0, linear := [(1, .nan)], nonlinear := none }
      rfl

/-- Claim C6: every `(classification, payload)` pair produced by a
successful walk step satisfies: the tag is CONSTANT iff the payload is a
bare numeric value; LINEAR iff the payload is a repn with no nonlinear
part and a non-empty linear dict; GENERAL iff the payload is a repn with
a nonlinear part (regardless of the linear dict).  The state hypothesis
says every previously cached pair satisfies the same invariant (true of
the empty initial state and preserved by every walk). -/
theorem C6_classification_invariant (fuel : Nat) (e : Expr) (s : VState)
    (tp : ExprType × Payload) (s2 : VState)
    (hw : WFS s) (h : walkT fuel e s = .ok (tp, s2)) :
    (tp.1 = .CONSTANT ↔ ∃ v, tp.2 = .val v) ∧
    (tp.1 = .LINEAR ↔ ∃ r, tp.2 = .rep r ∧ r.nonlinear = none ∧ r.linear ≠ []) ∧
    (tp.1 = .GENERAL ↔ ∃ r, tp.2 = .rep r ∧ r.nonlinear ≠ none) := by
  obtain ⟨hi, _⟩ := walkT_inv hw h
  obtain ⟨t, p⟩ := tp
  cases t with
  | CONSTANT =>
    obtain ⟨v, rfl⟩ := hi
    refine ⟨⟨fun _ => ⟨v, rfl⟩, fun _ => rfl⟩, ⟨fun hc => ExprType.noConfusion hc, ?_⟩,
      ⟨fun hc => ExprType.noConfusion hc, ?_⟩⟩
    · intro hc
      obtain ⟨r, hr, _⟩ := hc
      exact Payload.noConfusion hr
    · intro hc
      obtain ⟨r, hr, _⟩ := hc
      exact Payload.noConfusion hr
  | LINEAR =>
    obtain ⟨r, rfl, hnl, hlin⟩ := hi
    refine ⟨⟨fun hc => ExprType.noConfusion hc, ?_⟩, ⟨fun _ => ⟨r, rfl, hnl, hlin⟩, fun _ => rfl⟩,
      ⟨fun hc => ExprType.noConfusion hc, ?_⟩⟩
    · intro hc
      obtain ⟨v, hv⟩ := hc
      exact Payload.noConfusion hv
    · intro hc
      obtain ⟨r2, hr2, hnl2⟩ := hc
      cases hr2
      exact absurd hnl hnl2
  | GENERAL =>
    obtain ⟨r, rfl, hnl⟩ := hi
    refine ⟨⟨fun hc => ExprType.noConfusion hc, ?_⟩, ⟨fun hc => ExprType.noConfusion hc, ?_⟩,
      ⟨fun _ => ⟨r, rfl, hnl⟩, fun _ => rfl⟩⟩
    · intro hc
      obtain ⟨v, hv⟩ := hc
      exact Payload.noConfusion hv
    · intro hc
      obtain ⟨r2, hr2, hnl2, hlin2⟩ := hc
      cases hr2
      exact absurd hnl2 hnl

/-- Witness for C6 at a concrete walk: a free variable leaf classifies
LINEAR with a repn payload carrying one linear entry and no nonlinear
part. -/
theorem C6_classification_invariant_witness :
    ((ExprType.LINEAR : ExprType) = .CONSTANT ↔
      ∃ v, (Payload.rep { LinearRepn.init with linear := [(0, .num 1)] }) = .val v) ∧
    ((ExprType.LINEAR : ExprType) = .LINEAR ↔
      ∃ r, (Payload.rep { LinearRepn.init with linear := [(0, .num 1)] }) = .rep r ∧
        r.nonlinear = none ∧ r.linear ≠ []) ∧
    ((ExprType.LINEAR : ExprType) = .GENERAL ↔
      ∃ r, (Payload.rep { LinearRepn.init with linear := [(0, .num 1)] }) = .rep r ∧
        r.nonlinear ≠ none) :=
  C6_classification_invariant 3 (.var ⟨0, false, .num 3⟩) VState.init
    (.LINEAR, .rep { LinearRepn.init with linear := [(0, .num 1)] })
    { var_map := [(0, ⟨0, false, .num 3⟩)], cache := [] }
    (fun p hp => absurd hp (List.not_mem_nil p)) rfl

/-- Claim C7 (code defect): re-classifying the reconstruction of a
classified result must reproduce the same linear map.  Because
`finalizeResult` scales the linear coefficients but leaves the
multiplier in place (see C1), `to_expression` re-applies that multiplier
on top of the already-scaled coefficients: for `-(x + 1)` the first
classification gives `x`-coefficient -1, the re-classification of its
reconstruction gives +1. -/
theorem C7_reclassification_differs :
    classify 9 (.neg (.sum [.var ⟨0, false, .num 3⟩, .const (.num 1)])) VState.init =
      .ok ({ multiplier := .num (-1), constant := .num 1,
             linear := [(0, .num (-1))], nonlinear := none },
           { var_map := [(0, ⟨0, false, .num 3⟩)], cache := [] }) ∧
    classify 9
        (LinearRepn.to_expression
          { multiplier := .num (-1), constant := .num 1,
            linear := [(0, .num (-1))], nonlinear := none }
          [(0, ⟨0, false, .num 3⟩)])
        { var_map := [(0, ⟨0, false, .num 3⟩)], cache := [] } =
      .ok ({ multiplier := .num (-1), constant := .num 1,
             linear := [(0, .num 1)], nonlinear := none },
           { var_map := [(0, ⟨0, false, .num 3⟩)], cache := [] }) ∧
    alGet [(0, PyVal.num (-1))] 0 ≠ alGet [(0, PyVal.num 1)] 0 := by
  refine ⟨rfl, rfl, ?_⟩
  decide

/-- Witness for C8 at a one-object heap: the commit stores the original
address, the caller's copy is a fresh address, and the committed entry's
observable content survives the allocation. -/
theorem C8_cache_entry_isolation_witness :
    alGet [(5, (ExprType.LINEAR, 0))] 5 = some (ExprType.LINEAR, 0) ∧
    (1 : Nat) ≠ 0 ∧
    obsRepn { repns := [⟨.num 1, .num 0, 0, none⟩, ⟨.num 1, .num 0, 1, none⟩],
              dicts := [[(0, .num 1)], [(0, .num 1)]] } 0 =
      obsRepn { repns := [⟨.num 1, .num 0, 0, none⟩], dicts := [[(0, .num 1)]] } 0 := by
  have h := C8_cache_entry_isolation
    { repns := [⟨.num 1, .num 0, 0, none⟩], dicts := [[(0, .num 1)]] } [] 5 .LINEAR 0
    ⟨.num 1, .num 0, 0, none⟩ [(0, .num 1)]
    { repns := [⟨.num 1, .num 0, 0, none⟩, ⟨.num 1, .num 0, 1, none⟩],
      dicts := [[(0, .num 1)], [(0, .num 1)]] } [(5, (.LINEAR, 0))] .LINEAR 1
    rfl rfl rfl
  exact ⟨h.1, h.2.2.1, h.2.2.2.1⟩

/-- Claim C9 counterexample: a suffix value that `float()` rejects with a
`TypeError` (a non-string, non-numeric object) is not wrapped into the
descriptive `ValueError`: the `except ValueError` clause lets it escape
undecorated. -/
theorem C9_typeerror_not_wrapped :
    get_float_scaling_factor (some (.objOther "ComponentMap")) "x" = .rawTypeError ∧
    (∀ msg, ScaleResult.rawTypeError = ScaleResult.scaleValueError msg → False) :=
  ⟨rfl, fun _ hh => ScaleResult.noConfusion hh⟩

/-- Claim C9 as amended: looking up a component's scaling factor returns
1.0 when no suffix value is found; a numeric value is returned converted;
a value whose `float()` conversion raises `ValueError` (a non-numeric
string) is rejected at the point of use with the descriptive error naming
the value and the component; a value whose conversion raises `TypeError`
propagates that `TypeError` undecorated. -/
theorem C9_scaling_factor_lookup :
    (∀ comp, get_float_scaling_factor none comp = .factor 1) ∧
    (∀ q comp, get_float_scaling_factor (some (.num q)) comp = .factor q) ∧
    (∀ s comp, get_float_scaling_factor (some (.strBad s)) comp =
      .scaleValueError ("Suffix scaling_factor has a value " ++ s ++ " for component "
        ++ comp
        ++ " that cannot be converted to a float. Floating point values are required for this suffix in the ScaleModel transformation.")) ∧
    (∀ d comp, get_float_scaling_factor (some (.objOther d)) comp = .rawTypeError) :=
  ⟨fun _ => rfl, fun _ _ => rfl, fun _ _ => rfl, fun _ _ => rfl⟩

/-- Claim C10 counterexample: with identity 0 already registered as free,
a later monomial encounter `0 * x` of that identity (the variable now
fixed) does NOT classify LINEAR with a coefficient entry — the zero trap
fires first and the monomial classifies CONSTANT 0 with no entry and no
state change. -/
theorem C10_zero_coef_monomial_constant :
    walkT 5 (.var ⟨0, false, .num 3⟩) VState.init =
      .ok ((.LINEAR, .rep { LinearRepn.init with linear := [(0, .num 1)] }),
           { var_map := [(0, ⟨0, false, .num 3⟩)], cache := [] }) ∧
    walkT 5 (.monomial (.const (.num 0)) ⟨0, true, .num 7⟩)
        { var_map := [(0, ⟨0, false, .num 3⟩)], cache := [] } =
      .ok ((.CONSTANT, .val (.num 0)),
           { var_map := [(0, ⟨0, false, .num 3⟩)], cache := [] }) := ⟨rfl, rfl⟩

/-- Claim C10 as amended: once an identity is registered, the variable's
fixed flag is never consulted again — the statements below hold for an
arbitrary variable record carrying that identity, whatever its fixed
flag and value.  A bare leaf encounter classifies LINEAR with coefficient
1; a monomial or affine-sum term with a non-zero, non-NaN coefficient
classifies LINEAR with that coefficient keyed by the identity, never
folded into the constant; zero or NaN coefficients short-circuit to
constants before the variable is inspected (see the counterexample). -/
theorem C10_registered_var_ignores_fixed :
    (∀ (fuel : Nat) (s : VState) (x w : Var), alGet s.var_map x.vid = some w →
      walkT (fuel + 1) (.var x) s =
        .ok ((.LINEAR, .rep { LinearRepn.init with linear := [(x.vid, .num 1)] }), s)) ∧
    (∀ (fuel : Nat) (s : VState) (x w : Var) (cv : PyVal), alGet s.var_map x.vid = some w →
      truthyV cv = true → isNaNV cv = false →
      walkT (fuel + 1) (.monomial (.const cv) x) s =
        .ok ((.LINEAR, .rep { LinearRepn.init with linear := [(x.vid, cv)] }), s)) ∧
    (∀ (fuel : Nat) (s : VState) (x w : Var) (cv : PyVal), alGet s.var_map x.vid = some w →
      truthyV cv = true → isNaNV cv = false →
      walkT (fuel + 1) (.linear [.monomial (.const cv) x]) s =
        .ok ((.LINEAR,
              .rep { LinearRepn.init with constant := .num 0, linear := [(x.vid, cv)] }),
             s)) :=
  ⟨fun fuel s x w h => walkT_var_registered fuel s x w h,
   fun fuel s x w cv h ht hn => walkT_monomial_registered fuel s x w cv h ht hn,
   fun fuel s x w cv h ht hn => walkT_linear_single_registered fuel s x w cv h ht hn⟩

/-- Witness for C10: identity 0 registered free; the later encounters use
a record with the fixed flag set, and still classify LINEAR against the
registry entry. -/
theorem C10_registered_var_ignores_fixed_witness :
    walkT 2 (.var ⟨0, true, .num 7⟩) { var_map := [(0, ⟨0, false, .num 3⟩)], cache := [] } =
      .ok ((.LINEAR, .rep { LinearRepn.init with linear := [(0, .num 1)] }),
           { var_map := [(0, ⟨0, false, .num 3⟩)], cache := [] }) ∧
    walkT 2 (.monomial (.const (.num 2)) ⟨0, true, .num 7⟩)
        { var_map := [(0, ⟨0, false, .num 3⟩)], cache := [] } =
      .ok ((.LINEAR, .rep { LinearRepn.init with linear := [(0, .num 2)] }),
           { var_map := [(0, ⟨0, false, .num 3⟩)], cache := [] }) ∧
    walkT 2 (.linear [.monomial (.const (.num 2)) ⟨0, true, .num 7⟩])
        { var_map := [(0, ⟨0, false, .num 3⟩)], cache := [] } =
      .ok ((.LINEAR,
            .rep { LinearRepn.init with constant := .num 0, linear := [(0, .num 2)] }),
           { var_map := [(0, ⟨0, false, .num 3⟩)], cache := [] }) :=
  ⟨C10_registered_var_ignores_fixed.1 1 _ ⟨0, true, .num 7⟩ ⟨0, false, .num 3⟩ rfl,
   C10_registered_var_ignores_fixed.2.1 1 _ ⟨0, true, .num 7⟩ ⟨0, false, .num 3⟩ (.num 2)
     rfl rfl rfl,
   C10_registered_var_ignores_fixed.2.2 1 _ ⟨0, true, .num 7⟩ ⟨0, false, .num 3⟩ (.num 2)
     rfl rfl rfl⟩
